import Mathlib

set_option maxRecDepth 100000

/-!
Verification development for the `alto` Singer-pipeline orchestrator.

This file shallowly embeds the parts of `alto` that the checked claims are
about, translated from the Python source:

* `fnmatch`-style glob matching used by catalog selection and stream maps
  (`src/alto/catalog.py`, `src/alto/engine.py`);
* MD5 (the hash used for schema ids and the PII-hash stream map);
* the built-in PII-hash stream map `HashStreamMap`
  (`src/alto/engine.py:715-753`);
* catalog selection `apply_selected` (`src/alto/catalog.py:70-175`);
* the pipeline runner's exit-code handling (`src/alto/engine.py:1375-1388`);
* the reservoir: ingestor, emitter, compactor and the lock protocol
  (`src/alto/engine.py:1487-1973`).

Machine integers are modelled as `Nat` with explicit `% 2 ^ 32` where the
source relies on 32-bit wraparound (MD5).  Python dictionaries are modelled
as insertion-ordered association lists.  Fallible code returns `Except` or
`Option`.
-/

namespace Alto

/-! ## Association-list helpers (Python `dict` semantics)

Python dicts preserve insertion order; assignment to an existing key keeps
its position, assignment to a fresh key appends. -/

/-- Look up a key in an insertion-ordered association list. -/
def alookup {α : Type} (m : List (String × α)) (k : String) : Option α :=
  match m with
  | [] => none
  | (k', v) :: rest => if k' = k then some v else alookup rest k

/-- Python `d[k] = v`: overwrite in place, else append. -/
def aset {α : Type} (m : List (String × α)) (k : String) (v : α) :
    List (String × α) :=
  match m with
  | [] => [(k, v)]
  | (k', v') :: rest =>
      if k' = k then (k, v) :: rest else (k', v') :: aset rest k v

/-- Python `k in d`. -/
def ahas {α : Type} (m : List (String × α)) (k : String) : Bool :=
  (alookup m k).isSome

/-- Python `d.setdefault(k, v)`. -/
def asetdefault {α : Type} (m : List (String × α)) (k : String) (v : α) :
    List (String × α) :=
  if ahas m k then m else m ++ [(k, v)]

/-! ## String helpers

Character-list implementations of the Python string operations used (the
byte-position-based core `String` functions do not kernel-evaluate). -/

/-- Python `s.startswith(p)`. -/
def strStartsWith (s p : String) : Bool := p.data.isPrefixOf s.data

/-- Python `s.endswith(p)`. -/
def strEndsWith (s p : String) : Bool := p.data.isSuffixOf s.data

/-- Python `s[n:]`. -/
def strDrop (s : String) (n : Nat) : String := String.mk (s.data.drop n)

/-- Python `c in s` for a single character. -/
def strHasChar (s : String) (c : Char) : Bool := s.data.contains c

/-- Helper for `splitChar`. -/
def splitCharGo (c : Char) (acc : List Char) : List Char → List (List Char)
  | [] => [acc.reverse]
  | x :: xs =>
      if x = c then acc.reverse :: splitCharGo c [] xs
      else splitCharGo c (x :: acc) xs

/-- Python `s.split(c)` on a one-character separator. -/
def splitChar (c : Char) (s : String) : List String :=
  (splitCharGo c [] s.data).map String.mk

/-- Lexicographic code-point comparison on character lists. -/
def chListLt : List Char → List Char → Bool
  | [], [] => false
  | [], _ :: _ => true
  | _ :: _, [] => false
  | a :: as, b :: bs =>
      if a.toNat < b.toNat then true
      else if b.toNat < a.toNat then false
      else chListLt as bs

/-- Python `a < b` on strings (lexicographic by code point). -/
def strLt (a b : String) : Bool := chListLt a.data b.data

/-- Python `max` on two strings (lexicographic by code point). -/
def strMax (a b : String) : String := if strLt a b then b else a

/-- Python `max` over a non-empty iterable of strings, with a default for
the empty case (the source never evaluates it on an empty iterable). -/
def strMaxList (xs : List String) (dflt : String) : String :=
  xs.foldl strMax dflt

/-- Insert into a lexicographically sorted list of strings. -/
def strInsertSorted (x : String) : List String → List String
  | [] => [x]
  | y :: ys => if strLt x y then x :: y :: ys else y :: strInsertSorted x ys

/-- Python `sorted` on strings (lexicographic by code point; stable, which
for strings coincides with any insertion sort). -/
def strSorted (xs : List String) : List String :=
  xs.foldr strInsertSorted []

/-- Last `/`-separated segment of a path: Python `path.split("/")[-1]`. -/
def pathName (p : String) : String :=
  (splitChar '/' p).getLastD ""

/-- Second-to-last `/`-separated segment: Python `path.split("/")[-2]`
(defined for the reservoir's `stream/schema_id/file` layout; the source
raises `IndexError` on paths with fewer than two segments, which never
occur in the layout). -/
def pathSchemaSeg (p : String) : String :=
  let segs := splitChar '/' p
  (segs.getD (segs.length - 2) "")

/-! ## Glob matching

Model of Python `fnmatch.fnmatch(name, pattern)` on POSIX (where
`os.path.normcase` is the identity) for the `*`, `?` and literal-character
forms the code's patterns use; `[...]` character classes are not modelled. -/

/-- Core glob matcher over character lists.  The first argument is fuel
(structural recursion so the kernel can evaluate it); `pat.length +
s.length + 1` always suffices since every step shrinks their sum or moves
from a `*` to a strictly shorter suffix. -/
def globMatchF : Nat → List Char → List Char → Bool
  | 0, _, _ => false
  | _ + 1, [], [] => true
  | n + 1, '*' :: ps, [] => globMatchF n ps []
  | _ + 1, _ :: _, [] => false
  | _ + 1, [], _ :: _ => false
  | n + 1, '*' :: ps, c :: cs =>
      globMatchF n ps (c :: cs) || globMatchF n ('*' :: ps) cs
  | n + 1, '?' :: ps, _ :: cs => globMatchF n ps cs
  | n + 1, p :: ps, c :: cs => (p = c) && globMatchF n ps cs

/-- Glob match over character lists with sufficient fuel. -/
def globMatchL (ps s : List Char) : Bool :=
  globMatchF (2 * (ps.length + s.length) + 1) ps s

/-- `fnmatch.fnmatch name pat`. -/
def fnmatch (name pat : String) : Bool :=
  globMatchL pat.data name.data

/-! ## MD5 (RFC 1321)

`hashlib.md5` as used for schema ids (`engine.py:1529`) and the PII hash
(`engine.py:745`).  Words are `Nat` reduced mod `2 ^ 32`. -/

/-- 32-bit truncation. -/
def w32 (n : Nat) : Nat := n % 4294967296

/-- Bitwise complement within 32 bits. -/
def wnot (x : Nat) : Nat := Nat.xor x 4294967295

/-- Left-rotate a 32-bit word. -/
def rotl (x s : Nat) : Nat :=
  w32 (x * 2 ^ s + x / 2 ^ (32 - s))

/-- The 64 MD5 sine-derived constants. -/
def md5K : List Nat :=
  [0xd76aa478, 0xe8c7b756, 0x242070db, 0xc1bdceee,
   0xf57c0faf, 0x4787c62a, 0xa8304613, 0xfd469501,
   0x698098d8, 0x8b44f7af, 0xffff5bb1, 0x895cd7be,
   0x6b901122, 0xfd987193, 0xa679438e, 0x49b40821,
   0xf61e2562, 0xc040b340, 0x265e5a51, 0xe9b6c7aa,
   0xd62f105d, 0x02441453, 0xd8a1e681, 0xe7d3fbc8,
   0x21e1cde6, 0xc33707d6, 0xf4d50d87, 0x455a14ed,
   0xa9e3e905, 0xfcefa3f8, 0x676f02d9, 0x8d2a4c8a,
   0xfffa3942, 0x8771f681, 0x6d9d6122, 0xfde5380c,
   0xa4beea44, 0x4bdecfa9, 0xf6bb4b60, 0xbebfbc70,
   0x289b7ec6, 0xeaa127fa, 0xd4ef3085, 0x04881d05,
   0xd9d4d039, 0xe6db99e5, 0x1fa27cf8, 0xc4ac5665,
   0xf4292244, 0x432aff97, 0xab9423a7, 0xfc93a039,
   0x655b59c3, 0x8f0ccc92, 0xffeff47d, 0x85845dd1,
   0x6fa87e4f, 0xfe2ce6e0, 0xa3014314, 0x4e0811a1,
   0xf7537e82, 0xbd3af235, 0x2ad7d2bb, 0xeb86d391]

/-- The 64 per-round rotate amounts. -/
def md5S : List Nat :=
  [7, 12, 17, 22, 7, 12, 17, 22, 7, 12, 17, 22, 7, 12, 17, 22,
   5,  9, 14, 20, 5,  9, 14, 20, 5,  9, 14, 20, 5,  9, 14, 20,
   4, 11, 16, 23, 4, 11, 16, 23, 4, 11, 16, 23, 4, 11, 16, 23,
   6, 10, 15, 21, 6, 10, 15, 21, 6, 10, 15, 21, 6, 10, 15, 21]

/-- Decode a 64-byte chunk into sixteen little-endian 32-bit words. -/
def md5Words (chunk : List Nat) : List Nat :=
  (List.range 16).map fun i =>
    chunk.getD (4 * i) 0 + chunk.getD (4 * i + 1) 0 * 256 +
      chunk.getD (4 * i + 2) 0 * 65536 + chunk.getD (4 * i + 3) 0 * 16777216

/-- One MD5 round: mixing function and message index for round `i`. -/
def md5FG (b c d i : Nat) : Nat × Nat :=
  if i < 16 then
    (Nat.lor (Nat.land b c) (Nat.land (wnot b) d), i)
  else if i < 32 then
    (Nat.lor (Nat.land d b) (Nat.land (wnot d) c), (5 * i + 1) % 16)
  else if i < 48 then
    (Nat.xor b (Nat.xor c d), (3 * i + 5) % 16)
  else
    (Nat.xor c (Nat.lor b (wnot d)), (7 * i) % 16)

/-- The 64-step compression loop on one chunk. -/
def md5Steps (m : List Nat) : Nat × Nat × Nat × Nat → Nat → Nat × Nat × Nat × Nat
  | st, 0 => st
  | (a, b, c, d), n + 1 =>
      let i := 64 - (n + 1)
      let fg := md5FG b c d i
      let f := w32 (fg.1 + a + md5K.getD i 0 + m.getD fg.2 0)
      md5Steps m (d, w32 (b + rotl f (md5S.getD i 0)), b, c) n

/-- Process one 64-byte chunk, updating the running state. -/
def md5Chunk (st : Nat × Nat × Nat × Nat) (chunk : List Nat) :
    Nat × Nat × Nat × Nat :=
  let m := md5Words chunk
  let r := md5Steps m st 64
  (w32 (st.1 + r.1), w32 (st.2.1 + r.2.1), w32 (st.2.2.1 + r.2.2.1),
   w32 (st.2.2.2 + r.2.2.2))

/-- Split a byte string into 64-byte chunks (fuel-based structural
recursion; the fuel is always at least the number of chunks). -/
def chunks64 : Nat → List Nat → List (List Nat)
  | 0, _ => []
  | _ + 1, [] => []
  | n + 1, bs => bs.take 64 :: chunks64 n (bs.drop 64)

/-- Fold the compression over all 64-byte chunks. -/
def md5Blocks (st : Nat × Nat × Nat × Nat) (bytes : List Nat) :
    Nat × Nat × Nat × Nat :=
  (chunks64 bytes.length bytes).foldl md5Chunk st

/-- MD5 padding: `0x80`, zeros to 56 mod 64, then the 64-bit LE bit length. -/
def md5Pad (bytes : List Nat) : List Nat :=
  let len := bytes.length
  let zeros := (119 - len % 64) % 64
  let bitLen := w32 (len * 8) + (len * 8 / 4294967296) * 4294967296
  bytes ++ 128 :: List.replicate zeros 0 ++
    (List.range 8).map fun i => bitLen / 256 ^ i % 256

/-- Little-endian bytes of one 32-bit word. -/
def wordBytes (x : Nat) : List Nat :=
  [x % 256, x / 256 % 256, x / 65536 % 256, x / 16777216 % 256]

/-- The 16-byte MD5 digest of a byte string. -/
def md5Digest (bytes : List Nat) : List Nat :=
  let r := md5Blocks (0x67452301, 0xefcdab89, 0x98badcfe, 0x10325476)
    (md5Pad bytes)
  wordBytes r.1 ++ wordBytes r.2.1 ++ wordBytes r.2.2.1 ++ wordBytes r.2.2.2

/-- Lowercase hex digit. -/
def hexDigit (n : Nat) : Char :=
  if n < 10 then Char.ofNat (48 + n) else Char.ofNat (87 + n)

/-- Lowercase hex rendering of a byte list, two digits per byte. -/
def bytesToHex (bs : List Nat) : String :=
  String.mk (bs.flatMap fun b => [hexDigit (b / 16 % 16), hexDigit (b % 16)])

/-- UTF-8 encoding of one character (code point to 1-4 bytes). -/
def utf8Char (n : Nat) : List Nat :=
  if n < 128 then [n]
  else if n < 2048 then [192 + n / 64, 128 + n % 64]
  else if n < 65536 then [224 + n / 4096, 128 + n / 64 % 64, 128 + n % 64]
  else [240 + n / 262144, 128 + n / 4096 % 64, 128 + n / 64 % 64, 128 + n % 64]

/-- UTF-8 bytes of a string (Python `s.encode("utf-8")`). -/
def utf8Bytes (s : String) : List Nat :=
  s.data.flatMap fun c => utf8Char c.toNat

/-- `hashlib.md5(s.encode("utf-8")).hexdigest()`. -/
def md5Hex (s : String) : String :=
  bytesToHex (md5Digest (utf8Bytes s))

/-! ## JSON values

A mutual inductive (rather than a nested one) so that all functions over it
are structurally recursive and kernel-evaluable.  Python floats are not
modelled (no claim involves them). -/

mutual
/-- A JSON value. -/
inductive JVal : Type where
  | str (s : String)
  | int (n : Int)
  | bool (b : Bool)
  | null
  | arr (xs : JArr)
  | obj (fs : JObj)

/-- A JSON array. -/
inductive JArr : Type where
  | nil
  | cons (hd : JVal) (tl : JArr)

/-- A JSON object: insertion-ordered key/value fields, as a Python dict. -/
inductive JObj : Type where
  | nil
  | cons (k : String) (v : JVal) (tl : JObj)
end

deriving instance DecidableEq for JVal, JArr, JObj

deriving instance DecidableEq for Except

/-- Python `d.get(k)`. -/
def jget : JObj → String → Option JVal
  | .nil, _ => none
  | .cons k' v rest, k => if k' = k then some v else jget rest k

/-- Python `d[k] = v`: overwrite in place, else append. -/
def jset : JObj → String → JVal → JObj
  | .nil, k, v => .cons k v .nil
  | .cons k' v' rest, k, v =>
      if k' = k then .cons k v rest else .cons k' v' (jset rest k v)

/-- `alto.utils.merge`: deep-merge `source` into `destination`; for each
key of `source`, recurse when both values are dicts, otherwise the source
value replaces the destination one (`src/alto/utils.py:46-58`). -/
def merge : JObj → JObj → JObj
  | .nil, destination => destination
  | .cons key (.obj vo) rest, destination =>
      -- node = destination.setdefault(key, {}); recurse if node is a dict
      let destination' :=
        match jget destination key with
        | some (JVal.obj node) => jset destination key (.obj (merge vo node))
        | some other =>
            let _ := other
            jset destination key (.obj vo)
        | none => jset destination key (.obj (merge vo .nil))
      merge rest destination'
  | .cons key value rest, destination => merge rest (jset destination key value)

/-! ## Stream-map engine and the built-in PII-hash map

`AltoStreamMap` / `HashStreamMap` (`src/alto/engine.py:610-753`).  A map
holds a `select` list of glob patterns matched against dotted crumbs. -/

/-- `AltoStreamMap.crumb_selected` (`engine.py:634-640`). -/
def crumb_selected (select : List String) (crumb : String) : Bool :=
  select.any fun pat => fnmatch crumb pat

/-- Python `str(v)` on the non-container JSON values the record transformer
can reach (`recursive_record_apply` recurses through dicts and lists, so
the transformer only ever sees leaves).  The container cases are
unreachable there and map to `""`. -/
def pyStr : JVal → String
  | .str s => s
  | .int n => toString n
  | .bool b => if b then "True" else "False"
  | .null => "None"
  | .arr _ => ""
  | .obj _ => ""

mutual
/-- `AltoStreamMap.recursive_record_apply` (`engine.py:664-682`): rebuild
dicts and arrays recursively, extending the crumb at dict keys, and apply
the transformer to selected leaves. -/
def recursive_record_apply (select : List String) (t : JVal → JVal) :
    JVal → String → JVal
  | .obj fs, crumb => .obj (recursive_record_apply_obj select t fs crumb)
  | .arr xs, crumb => .arr (recursive_record_apply_arr select t xs crumb)
  | v, crumb => if crumb_selected select crumb then t v else v

/-- Dict branch of `recursive_record_apply`. -/
def recursive_record_apply_obj (select : List String) (t : JVal → JVal) :
    JObj → String → JObj
  | .nil, _ => .nil
  | .cons k v rest, crumb =>
      .cons k (recursive_record_apply select t v (crumb ++ "." ++ k))
        (recursive_record_apply_obj select t rest crumb)

/-- List branch of `recursive_record_apply` (crumb unchanged). -/
def recursive_record_apply_arr (select : List String) (t : JVal → JVal) :
    JArr → String → JArr
  | .nil, _ => .nil
  | .cons v rest, crumb =>
      .cons (recursive_record_apply select t v crumb)
        (recursive_record_apply_arr select t rest crumb)
end

/-- The `type` attribute of a JSON-schema node, when the node is a dict
with a string `type` (Python `value.get("type")`). -/
def jtype (v : JVal) : Option String :=
  match v with
  | .obj fs =>
      match jget fs "type" with
      | some (.str s) => some s
      | _ => none
  | _ => none

/-- `HashStreamMap._jsonschema_string` (`engine.py:731-733`). -/
def jsonschema_string (v : JVal) : JVal :=
  let _ := v
  .obj (.cons "type" (.str "string") (.cons "format" (.str "hash") .nil))

/-- `AltoStreamMap.recursive_schema_apply` (`engine.py:646-662`).  For
`object`- and `array`-typed nodes the source recurses into `properties` /
`items` but discards the recursive results (the transformer does not
mutate in place), so the net value is the node unchanged; otherwise a
selected node is replaced by the transformed one. -/
def recursive_schema_apply (select : List String) (t : JVal → JVal)
    (v : JVal) (crumb : String) : JVal :=
  if jtype v = some "object" then v
  else if jtype v = some "array" then v
  else if crumb_selected select crumb then t v
  else v

/-- `HashStreamMap._pii_hash` (`engine.py:743-745`). -/
def pii_hash (v : JVal) : JVal :=
  .str (md5Hex (pyStr v))

/-- `HashStreamMap.transform_record` (`engine.py:747-753`): for each
top-level key of the record, apply the recursive PII hash with crumb
`stream.key`. -/
def transform_record (select : List String) (stream : String)
    (record : JObj) : JObj :=
  match record with
  | .nil => .nil
  | .cons k v rest =>
      .cons k (recursive_record_apply select pii_hash v (stream ++ "." ++ k))
        (transform_record select stream rest)

/-- `HashStreamMap.transform_schema` (`engine.py:735-741`): rewrite each
top-level property of the schema through `recursive_schema_apply`. -/
def transform_schema (select : List String) (stream : String)
    (properties : JObj) : JObj :=
  match properties with
  | .nil => .nil
  | .cons k v rest =>
      .cons k (recursive_schema_apply select jsonschema_string v
          (stream ++ "." ++ k))
        (transform_schema select stream rest)

/-- `AltoPlugin.get_stream_maps` hash-rule extraction
(`engine.py:560-566`): the `~`-prefixed selects, with the `~` stripped,
become the built-in PII hasher's `select` list. -/
def get_hash_rules (select : List String) : List String :=
  (select.filter fun s => strStartsWith s "~").map fun s => strDrop s 1

/-! ## Pipeline runner exit handling

`run_pipeline` (`src/alto/engine.py:1305-1388`).  After both subprocesses
exit, non-zero codes raise `subprocess.CalledProcessError(returncode,
cmd)`; `cmd` is the variable holding the tap's command
(`engine.py:1322-1328`, used at lines 1385 and 1387). -/

/-- Tap command assembly (`engine.py:1322-1328`). -/
def tap_command (tap_bin tap_config tap_catalog state : String)
    (state_isfile supports_state supports_catalog supports_properties :
      Bool) : List String :=
  [tap_bin, "--config", tap_config] ++
    (if state_isfile && supports_state then ["--state", state] else []) ++
    (if supports_catalog then ["--catalog", tap_catalog]
     else if supports_properties then ["--properties", tap_catalog]
     else [])

/-- Target command assembly (`engine.py:1341`). -/
def target_command (target_bin target_config : String) : List String :=
  [target_bin, "--config", target_config]

/-- `subprocess.CalledProcessError`: the exit code and command the raise
carries. -/
structure CalledProcessError where
  returncode : Int
  cmd : List String
deriving DecidableEq

/-- The wait-and-raise epilogue of `run_pipeline` (`engine.py:1375-1388`):
`cmd` is the tap's command; it is passed to the error in both raises. -/
def run_pipeline_wait (tap_returncode target_returncode : Int)
    (cmd : List String) : Except CalledProcessError Unit :=
  if tap_returncode ≠ 0 then .error ⟨tap_returncode, cmd⟩
  else if target_returncode ≠ 0 then .error ⟨target_returncode, cmd⟩
  else .ok ()

/-! ## Singer catalog and `apply_selected`

`src/alto/models.py:94-254` and `src/alto/catalog.py:28-175`.  A metadata
dict is projected onto the keys `apply_selected` reads and writes:
`selected`, `selected-by-default`, `inclusion` (absent = `none`); the
other keys are never touched by the selection code. -/

/-- One `SingerCatalogStreamMetadata` entry. -/
structure MetaEntry where
  breadcrumb : List String
  selected : Option Bool
  selectedByDefault : Option Bool
  inclusion : Option String
deriving DecidableEq

/-- `SingerCatalogStreamMetadata.is_root` (`models.py:110-112`). -/
def MetaEntry.isRoot (e : MetaEntry) : Bool := e.breadcrumb.isEmpty

/-- Construction with `__post_init__` applied (`models.py:101-105`): a
root entry gets `inclusion = "available"`; a missing `selected` key
becomes `False`. -/
def mkMetaEntry (breadcrumb : List String) (selected : Option Bool)
    (selectedByDefault : Option Bool) (inclusion : Option String) :
    MetaEntry :=
  let inclusion' := if breadcrumb.isEmpty then some "available" else inclusion
  let selected' := if selected = none then some false else selected
  ⟨breadcrumb, selected', selectedByDefault, inclusion'⟩

/-- A `SingerCatalogStream` restricted to the fields `apply_selected`
touches (`tap_stream_id`, `schema`, `metadata`, `selected`); replication
fields and key properties are untouched by selection. -/
structure StreamS where
  tap_stream_id : String
  schema : JObj
  metadata : List MetaEntry
  selected : Bool
deriving DecidableEq

/-- `CatalogMutationStrategy` (`catalog.py:18-25`). -/
inductive Strategy where
  | prune
  | deselect
deriving DecidableEq

/-- Python `d.pop(k, None)` on a JSON object. -/
def jdel : JObj → String → JObj
  | .nil, _ => .nil
  | .cons k' v rest, k => if k' = k then rest else .cons k' v (jdel rest k)

/-- Walk a chain of object-valued keys, mirroring the walk loop of
`_remove_breadcrumb_from_schema` (`catalog.py:33-48`): a missing key or a
falsy (empty) dict breaks the walk.  A truthy non-dict intermediate value
would make the source raise `AttributeError` further on (unreachable for
schema-shaped data); the model stops the walk there. -/
def walkObj : JObj → List String → Option JObj
  | d, [] => some d
  | d, p :: rest =>
      match jget d p with
      | some (.obj sub) => if sub = .nil then none else walkObj sub rest
      | _ => none

/-- Rebuild a nested object after replacing the sub-object at a path
(models the in-place mutation of a nested dict shared with the top-level
one). -/
def setObjPath : JObj → List String → JObj → JObj
  | _, [], repl => repl
  | d, p :: rest, repl =>
      match jget d p with
      | some (.obj sub) => jset d p (.obj (setObjPath sub rest repl))
      | _ => d

/-- `_remove_breadcrumb_from_schema` (`catalog.py:28-50`): walk all but
the last breadcrumb component, pop the last from the dict reached, and if
that dict became empty and more than two components were walked, also pop
the walked path's second-to-last key from its grandparent. -/
def remove_breadcrumb_from_schema (schema : JObj) (crumbs : List String) :
    JObj :=
  match crumbs with
  | [] => schema
  | _ =>
    let par := crumbs.dropLast
    let lastC := crumbs.getLastD ""
    match walkObj schema par with
    | none => schema
    | some d =>
      let d' := jdel d lastC
      let schema1 := setObjPath schema par d'
      if d' = .nil ∧ 2 < par.length then
        let gpPath := par.take (par.length - 2)
        match walkObj schema1 gpPath with
        | none => schema1
        | some g =>
            setObjPath schema1 gpPath (jdel g (par.getD (par.length - 2) ""))
      else schema1

/-- `_select_attribute` (`catalog.py:53-67`): returns the possibly
mutated entry together with the propagation flag. -/
def select_attribute (e : MetaEntry) : MetaEntry × Bool :=
  let selectedByDefault := e.selectedByDefault.getD false
  match e.selected with
  | some true => (e, true)
  | none =>
      if selectedByDefault then ({ e with selected := some true }, true)
      else if e.inclusion = some "automatic" then
        ({ e with selected := some true }, false)
      else (e, false)
  | some false =>
      if e.inclusion = some "automatic" then
        ({ e with selected := some true }, false)
      else (e, false)

/-- Python `any(_select_attribute(attr) for attr in stream.metadata)`:
short-circuits, so entries after the first propagating one are not
mutated. -/
def any_select_attribute : List MetaEntry → List MetaEntry × Bool
  | [] => ([], false)
  | e :: rest =>
      let r := select_attribute e
      if r.2 then (r.1 :: rest, true)
      else
        let rr := any_select_attribute rest
        (r.1 :: rr.1, rr.2)

/-- Parse one selection into `(stream_glob, breadcrumb_glob, invert)`
(`catalog.py:91-100`): split on the first `.`; a missing field part means
`"*"`; strip all leading `!` from the stream part. -/
def parse_pattern (sel : String) : String × String × Bool :=
  let parts := splitChar '.' sel
  let streamPart := parts.headD sel
  let breadcrumbGlob :=
    if strHasChar sel '.' then String.intercalate "." parts.tail else "*"
  (String.mk (streamPart.data.dropWhile fun c => c = '!'), breadcrumbGlob,
    strStartsWith streamPart "!")

/-- The selection preprocessing of `apply_selected` (`catalog.py:82-115`):
default `["*.*"]` for an empty list; prepend `"*.*"` when *all*
selections start with `!` (note: a `~`-prefixed selection does not start
with `!`, so its presence defeats this check); parse; and prepend the
`("*", "*", false)` pattern when all parsed patterns are inverted. -/
def preprocess_selections (selections : List String) :
    List (String × String × Bool) :=
  let selections1 := if selections = [] then ["*.*"] else selections
  let selections2 :=
    if selections1.all (fun s => strStartsWith s "!") then
      "*.*" :: selections1
    else selections1
  let patterns0 := selections2.map parse_pattern
  if patterns0.all (fun p => p.2.2) then ("*", "*", false) :: patterns0
  else patterns0

/-- Replace the element at an index (in-place list mutation). -/
def updateAt {α : Type} (i : Nat) (f : α → α) : List α → List α
  | [] => []
  | x :: xs =>
      match i with
      | 0 => f x :: xs
      | j + 1 => x :: updateAt j f xs

/-- Dotted join of a breadcrumb without its first component, as matched in
pass 1 (`catalog.py:129-132`). -/
def breadcrumbCrumb (e : MetaEntry) : String :=
  String.intercalate "." (e.breadcrumb.drop 1)

/-- Pass 1 of `apply_selected` on one stream (`catalog.py:117-133`): drop
the root entry's `selected` key (or append a fresh root); then every
pattern matching the stream id sets `selected = not invert` on every
entry whose joined breadcrumb matches the field glob. -/
def pass1_stream (patterns : List (String × String × Bool)) (s : StreamS) :
    StreamS :=
  let md0 :=
    match s.metadata.findIdx? (fun e => e.isRoot) with
    | some i => updateAt i (fun e => { e with selected := none }) s.metadata
    | none => s.metadata ++ [mkMetaEntry [] none none none]
  let md1 := patterns.foldl
    (fun md pat =>
      if fnmatch s.tap_stream_id pat.1 then
        md.map fun e =>
          if fnmatch (breadcrumbCrumb e) pat.2.1 then
            { e with selected := some (!pat.2.2) }
          else e
      else md)
    md0
  { s with metadata := md1 }

/-- Pass 2 of `apply_selected` on one stream (`catalog.py:136-163`):
returns the mutated stream and whether it is kept.  When kept, the root
(or index 0) entry is selected, ambiguous entries are forced selected,
and — under PRUNE — the `selected = false` entries are popped in reverse
order with their breadcrumbs removed from the schema. -/
def pass2_stream (strategy : Strategy) (s : StreamS) : StreamS × Bool :=
  let r := any_select_attribute s.metadata
  if !r.2 then ({ s with metadata := r.1 }, false)
  else
    let md := r.1
    let rootIx := (md.findIdx? (fun e => e.isRoot)).getD 0
    let md1 := updateAt rootIx (fun e => { e with selected := some true }) md
    let md2 := md1.map fun e =>
      if e.selected = none then { e with selected := some true } else e
    match strategy with
    | .prune =>
        let removed := md2.filter fun e => e.selected = some false
        let kept := md2.filter fun e => ¬e.selected = some false
        let schema' := removed.reverse.foldl
          (fun sch e => remove_breadcrumb_from_schema sch e.breadcrumb)
          s.schema
        ({ s with selected := true, metadata := kept, schema := schema' },
          true)
    | .deselect =>
        ({ s with selected := true, metadata := md2 }, true)

/-- `apply_selected` (`catalog.py:70-175`): preprocessing, pass 1, pass 2,
then stream removal (PRUNE pops unkept streams; DESELECT clears their
`selected` flag). -/
def apply_selected (catalog : List StreamS) (selections : List String)
    (strategy : Strategy) : List StreamS :=
  let patterns := preprocess_selections selections
  let streams1 := catalog.map (pass1_stream patterns)
  let processed := streams1.map (pass2_stream strategy)
  match strategy with
  | .prune => (processed.filter fun p => p.2).map fun p => p.1
  | .deselect =>
      processed.map fun p =>
        if p.2 then p.1 else { p.1 with selected := false }

/-! ## Reservoir ingestor

`reservoir_ingestor` (`src/alto/engine.py:1487-1612`).  The tap's stdout
is a list of lines; each carries its raw text and its `json.loads` result
(`none` models a `JSONDecodeError`).  The mapper chain is instantiated
empty (the checked claims do not involve stream maps; note the source
buffers the *raw* line regardless of mappers).  Paths drop the constant
`reservoir/<env>/<tap>/` base; the timestamp source is modelled by a
strictly increasing counter rendered as a sortable zero-padded name. -/

/-- A parsed Singer message.  `schemaText` stands for the canonicalized
`json.dumps(message["schema"], sort_keys=True)` text.  Messages of other
types carry their `stream` (the source reads `message["stream"]` before
the type dispatch for every non-STATE message). -/
inductive Msg where
  | state (value : JObj)
  | schema (stream : String) (schemaText : String)
  | record (stream : String)
  | other (stream : String)
deriving DecidableEq

/-- `md5(json.dumps(schema, sort_keys=True)).hexdigest()[:15]`
(`engine.py:1529-1531`). -/
def schema_id_of (schemaText : String) : String :=
  String.mk ((md5Hex schemaText).data.take 15)

/-- One line of tap stdout. -/
structure IngestLine where
  raw : String
  msg : Option Msg
deriving DecidableEq

/-- A per-`(stream, schema_id)` buffer: the record count and the lines
written to the gzip member (header first). -/
structure Container where
  count : Nat
  header : String
  records : List String
deriving DecidableEq

/-- Errors that abort the ingest loop. -/
inductive IngestError where
  /-- `NameError`: the first line fails to parse and `message` is unbound
  (the `except` clause has no `continue`). -/
  | nameError
  /-- `KeyError` from a dict lookup (record buffer / active schema). -/
  | keyError
deriving DecidableEq

/-- The ingest loop state. -/
structure IngestState where
  lastMsg : Option Msg
  buffers : List (String × List (String × Container))
  active : List (String × String)
  reservoir : List (String × List String)
  stream_states : JObj
  counter : Nat
  flushed : List (String × List String)
deriving DecidableEq

/-- Zero-padded counter rendering, lexicographically ordered like the
`%Y%m%d%H%M%S%f` timestamps of the source. -/
def tsName (n : Nat) : String :=
  let s := toString n
  String.mk (List.replicate (20 - s.length) '0') ++ s

/-- The object path of one flushed batch
(`record_key.format(stream=stream, schema_id=sid)` plus the timestamped
file name, `engine.py:1557-1561`). -/
def flushPath (stream sid : String) (counter : Nat) : String :=
  stream ++ "/" ++ sid ++ "/" ++ tsName counter ++ ".singer.gz"

/-- Append a path to the index list of a stream (`engine.py:1574-1576`). -/
def reservoirAppend (reservoir : List (String × List String))
    (stream path : String) : List (String × List String) :=
  let r0 := if ahas reservoir stream then reservoir
            else aset reservoir stream []
  aset r0 stream ((alookup r0 stream).getD [] ++ [path])

/-- One iteration of the ingest loop (`engine.py:1511-1582`).  On a
parse failure the source's `except` clause falls through without
`continue`, so the *previous* `message` is re-dispatched against the
*current* raw line; on the very first line this raises `NameError`. -/
def ingest_step (bufferSize : Nat) (st : IngestState) (l : IngestLine) :
    Except IngestError IngestState :=
  match (match l.msg with | some m => some m | none => st.lastMsg) with
  | none => .error .nameError
  | some m =>
    match m with
    | .state v =>
        .ok { st with lastMsg := some m,
                      stream_states := merge v st.stream_states }
    | .schema stream text =>
        let sid := schema_id_of text
        let fresh : Container := ⟨0, l.raw, [l.raw]⟩
        let st1 :=
          match alookup st.buffers stream with
          | some slots =>
              if ahas slots sid then st
              else
                -- the whole per-stream dict is replaced, discarding any
                -- other schema slot of this stream (`engine.py:1537-1544`)
                { st with buffers := aset st.buffers stream [(sid, fresh)] }
          | none =>
              { st with buffers := aset st.buffers stream [(sid, fresh)] }
        .ok { st1 with active := aset st1.active stream sid,
                       lastMsg := some m }
    | .record stream =>
        match alookup st.buffers stream with
        | none => .error .keyError
        | some slots =>
          match alookup st.active stream with
          | none => .error .keyError
          | some aid =>
            match alookup slots aid with
            | none => .error .keyError
            | some c =>
              let c1 : Container :=
                { c with count := c.count + 1, records := c.records ++ [l.raw] }
              if bufferSize ≤ c1.count then
                let path := flushPath stream aid st.counter
                let c2 : Container := { c1 with count := 0, records := [c1.header] }
                .ok { st with
                  buffers := aset st.buffers stream (aset slots aid c2),
                  flushed := st.flushed ++ [(path, c1.records)],
                  reservoir := reservoirAppend st.reservoir stream path,
                  counter := st.counter + 1,
                  lastMsg := some m }
              else
                .ok { st with
                  buffers := aset st.buffers stream (aset slots aid c1),
                  lastMsg := some m }
    | .other stream =>
        -- neither SCHEMA nor RECORD: the elif chain drops the line
        let _ := stream
        .ok { st with lastMsg := some m }

/-- The end-of-stream flush of the remaining slots of one stream
(`engine.py:1586-1606`).  Note the source derives the path from
`active_schemas[stream]`, not from the slot's own schema id. -/
def eof_flush_slots (stream : String) (st : IngestState) :
    List (String × Container) → Except IngestError IngestState
  | [] => .ok st
  | (_, c) :: rest =>
      if c.count = 0 then eof_flush_slots stream st rest
      else
        match alookup st.active stream with
        | none => .error .keyError
        | some aid =>
            let path := flushPath stream aid st.counter
            eof_flush_slots stream
              { st with
                flushed := st.flushed ++ [(path, c.records)],
                reservoir := reservoirAppend st.reservoir stream path,
                counter := st.counter + 1 }
              rest

/-- The end-of-stream flush over all streams. -/
def eof_flush (st : IngestState) :
    List (String × List (String × Container)) →
    Except IngestError IngestState
  | [] => .ok st
  | (stream, slots) :: rest => do
      let st1 ← eof_flush_slots stream st slots
      eof_flush st1 rest

/-- `reservoir_ingestor`: fold the loop over the input lines, then flush
every non-empty buffer. -/
def reservoir_ingestor (bufferSize : Nat) (input : List IngestLine)
    (reservoir0 : List (String × List String)) (states0 : JObj) :
    Except IngestError IngestState := do
  let st0 : IngestState := ⟨none, [], [], reservoir0, states0, 0, []⟩
  let st ← input.foldlM (ingest_step bufferSize) st0
  eof_flush st st.buffers

/-! ## Reservoir emitter

`reservoir_to_target` (`src/alto/engine.py:1721-1868`).  The per-target
state document `{ "__version__": v, stream: {"emitted": f} }` is modelled
structurally; `version = none` models an absent `__version__` key (both
sides are `setdefault`-ed to 0).  The store maps each object path to its
gunzipped non-empty lines.  Concurrent fetches write whole files under a
mutex; the model delivers files in partition order, which fixes one
interleaving (per-file contents and the delivered multiset are
scheduler-independent). -/

/-- The emitter-side state document. -/
structure EmitterState where
  version : Option Int
  bookmarks : List (String × String)
deriving DecidableEq

/-- The reservoir index `_reservoir.json`: the `__version__` key (absent
for an index written by a fresh ingest) and the per-stream path lists. -/
structure RIndex where
  version : Option Int
  streams : List (String × List String)
deriving DecidableEq

/-- Version reconciliation (`engine.py:1779-1796`): when the state and
index versions differ, for every indexed stream previously seen, fold
over the sorted paths raising the bookmark to any larger file name, then
adopt the index version. -/
def reconcile_state (st : EmitterState) (idx : RIndex) : EmitterState :=
  let sv := st.version.getD 0
  let rv := idx.version.getD 0
  if sv ≠ rv then
    let bms := idx.streams.foldl
      (fun bms p =>
        match alookup bms p.1 with
        | none => bms
        | some em =>
            aset bms p.1 ((strSorted p.2).foldl
              (fun em path =>
                if strLt em (pathName path) then pathName path else em)
              em))
      st.bookmarks
    ⟨some rv, bms⟩
  else ⟨some sv, st.bookmarks⟩

/-- Partition a work queue by the schema-id path segment, preserving
insertion order (`engine.py:1839-1844`). -/
def partition_by_schema (paths : List String) :
    List (String × List String) :=
  paths.foldl
    (fun acc p =>
      aset acc (pathSchemaSeg p)
        ((alookup acc (pathSchemaSeg p)).getD [] ++ [p]))
    []

/-- Emit the partitions of one stream (`engine.py:1847-1862`): deliver
every file's lines, then raise the bookmark to the largest emitted file
name.  A missing object is an error surfaced by iterating the pool
results. -/
def emit_partitions (store : List (String × List String)) (stream : String)
    (parts : List (String × List String)) (bms : List (String × String))
    (delivered : List String) (files : Nat) :
    Except Unit (List (String × String) × List String × Nat) :=
  match parts with
  | [] => .ok (bms, delivered, files)
  | (_, ps) :: rest => do
      let contents ← ps.mapM fun p =>
        match alookup store p with
        | some lines => Except.ok lines
        | none => Except.error ()
      let em := (alookup bms stream).getD ""
      let em' := strMax em (strMaxList (ps.map pathName) "")
      emit_partitions store stream rest (aset bms stream em')
        (delivered ++ contents.flatten) (files + ps.length)

/-- The emission loop over the index streams (`engine.py:1825-1862`). -/
def emit_streams (store : List (String × List String))
    (streams : List (String × List String)) (bms : List (String × String))
    (delivered : List String) (files : Nat) :
    Except Unit (List (String × String) × List String × Nat) :=
  match streams with
  | [] => .ok (bms, delivered, files)
  | (stream, paths) :: rest => do
      let bms0 := asetdefault bms stream ""
      let em := (alookup bms0 stream).getD ""
      let work := paths.filter fun p => strLt em (pathName p)
      if work = [] then emit_streams store rest bms0 delivered files
      else
        let r ← emit_partitions store stream (partition_by_schema work)
          bms0 delivered files
        emit_streams store rest r.1 r.2.1 r.2.2

/-- `reservoir_to_target` after the index is loaded: reconcile versions,
then emit.  Returns the final state document, the lines delivered to the
target's stdin, and the file count. -/
def reservoir_to_target (st0 : EmitterState) (idx : RIndex)
    (store : List (String × List String)) :
    Except Unit (EmitterState × List String × Nat) := do
  let st1 := reconcile_state st0 idx
  let r ← emit_streams store idx.streams st1.bookmarks [] 0
  .ok (⟨st1.version, r.1⟩, r.2.1, r.2.2)

/-! ## Reservoir compactor and lock protocol

`compact_reservoir` (`src/alto/engine.py:1871-1973`) and the lock
handling of `tap_to_reservoir` (`engine.py:1670-1718`).  Object-store
files carry a size (what `fs.size` returns) and an opaque byte content;
writing a concatenation sums the sizes and concatenates the contents. -/

/-- One stored object. -/
structure RFile where
  size : Nat
  content : List Nat
deriving DecidableEq

/-- The data files of the reservoir prefix. -/
def Store := List (String × RFile)
deriving instance DecidableEq for Store

/-- The reservoir prefix as a system state: the lock object, the
`_reservoir.json` index object, and the data files. -/
structure ReservoirSys where
  lock : Option String
  indexFile : Option RIndex
  store : Store
deriving DecidableEq

/-- Result of the compaction body: the (possibly partially) mutated store
with the `changed` flag, or an exception carrying the partial store (the
source's `except Exception` keeps all mutations made so far). -/
inductive BodyRes where
  | ok (store : Store) (changed : Bool)
  | exn (store : Store)
deriving DecidableEq

/-- `fs.cat` on a sorted merge set followed by `fs.pipe` of the
concatenation to the lexicographically last target and `fs.rm` of the
rest (`engine.py:1928-1933`); a missing object is an exception before any
mutation. -/
def merge_files (store : Store) (queue : List String) : Option Store :=
  let targets := strSorted queue
  match targets.mapM (fun p => alookup store p) with
  | none => none
  | some files =>
      let f : RFile :=
        ⟨(files.map fun f => f.size).sum, (files.map fun f => f.content).flatten⟩
      let store1 := aset store (targets.getLastD "") f
      some (store1.filter fun e => e.1 ∉ targets.dropLast)

/-- The merge-queue loop of one schema partition (`engine.py:1918-1944`):
pop compactable entries from the end, merge when the accumulated bytes
exceed `2.5e7`, and flush a tail merge at the end.  The first argument
list is the compactable entries in pop order (reversed index order). -/
def compact_queue_loop (store : Store) :
    List (String × Nat) → List String → Nat → Bool → BodyRes
  | [], queue, _, changed =>
      if queue ≠ [] then
        match merge_files store queue with
        | none => .exn store
        | some store' => .ok store' true
      else .ok store changed
  | (p, sz) :: rest, queue, qb, changed =>
      let queue1 := queue ++ [p]
      let qb1 := qb + sz
      if 25000000 < qb1 then
        match merge_files store queue1 with
        | none => .exn store
        | some store' => compact_queue_loop store' rest [] 0 true
      else compact_queue_loop store rest queue1 qb1 changed

/-- `fs.size` of every path of a stream, partitioned by schema segment
(`engine.py:1906-1913`); `none` is the `FileNotFoundError` of a missing
path. -/
def build_paths_by_schema (store : Store) (paths : List String) :
    Option (List (String × List (String × Nat))) :=
  paths.foldlM
    (fun acc p =>
      (alookup store p).map fun f =>
        aset acc (pathSchemaSeg p)
          ((alookup acc (pathSchemaSeg p)).getD [] ++ [(p, f.size)]))
    []

/-- The partition loop of one stream (`engine.py:1914-1944`): only files
with `size < 2.5e7` are compactable, and partitions with fewer than two
such files are skipped. -/
def compact_partitions (store : Store) :
    List (String × List (String × Nat)) → Bool → BodyRes
  | [], changed => .ok store changed
  | (_, pws) :: rest, changed =>
      let compactable := pws.filter fun q => q.2 < 25000000
      if compactable.length < 2 then compact_partitions store rest changed
      else
        match compact_queue_loop store compactable.reverse [] 0 changed with
        | .exn s => .exn s
        | .ok s c => compact_partitions s rest c

/-- One stream of the compaction body (`engine.py:1900-1913`). -/
def compact_stream (store : Store) (paths : List String) (changed : Bool) :
    BodyRes :=
  if ¬1 < paths.length then .ok store changed
  else
    match build_paths_by_schema store paths with
    | none => .exn store
    | some pbs => compact_partitions store pbs changed

/-- The whole compaction body over the index streams
(`engine.py:1899-1948`). -/
def compact_body (store : Store) :
    List (String × List String) → Bool → BodyRes
  | [], changed => .ok store changed
  | (_, paths) :: rest, changed =>
      match compact_stream store paths changed with
      | .exn s => .exn s
      | .ok s c => compact_body s rest c

/-- The index-rebuild glob `**.singer.gz` under a stream directory,
sorted (`engine.py:1956-1962`). -/
def glob_singer (store : Store) (stream : String) : List String :=
  strSorted ((store.map fun e => e.1).filter fun p =>
    strStartsWith p (stream ++ "/") && strEndsWith p ".singer.gz")

/-- `compact_reservoir` (`engine.py:1871-1973`).  Fail fast when the lock
exists; write the lock; a missing index returns early — with no
enclosing `finally`, the lock object is left in place.  Otherwise run the
body (any exception flips `changed`), and under `changed` bump the
version, rebuild every stream's path list from a glob, and write the
index; the lock is deleted in the final `finally`. -/
def compact_reservoir (sys : ReservoirSys) : Except String ReservoirSys :=
  if sys.lock.isSome then .error "lock file exists, aborting"
  else
    let sys1 : ReservoirSys := { sys with lock := some "compaction in progress" }
    match sys1.indexFile with
    | none => .ok sys1
    | some idx =>
        let bodyRes := compact_body sys1.store idx.streams false
        let store' := match bodyRes with | .ok s _ => s | .exn s => s
        let changed := match bodyRes with | .ok _ c => c | .exn _ => true
        if changed then
          let idx' : RIndex :=
            ⟨some (idx.version.getD 0 + 1),
             idx.streams.map fun p => (p.1, glob_singer store' p.1)⟩
          .ok { lock := none, indexFile := some idx', store := store' }
        else
          .ok { sys1 with lock := none, store := store' }

/-- The `changed` flag a compaction run computes for a given index and
store (exceptions count as changed), for stating the version-bump
claim. -/
def compact_changed (idx : RIndex) (store : Store) : Bool :=
  match compact_body store idx.streams false with
  | .ok _ c => c
  | .exn _ => true

/-- A compaction run as a total state transformer: a raised
`RuntimeError` (lock held) leaves the system unchanged. -/
def compact_run (sys : ReservoirSys) : ReservoirSys :=
  match compact_reservoir sys with
  | .ok s => s
  | .error _ => sys

/-- The index version a system carries (0 when absent, as every consumer
`setdefault`s / `get`s it to 0). -/
def sysVersion (sys : ReservoirSys) : Int :=
  match sys.indexFile with
  | none => 0
  | some idx => idx.version.getD 0

/-- Outcome of the lock-guarded `tap_to_reservoir` run
(`engine.py:1670-1718`). -/
structure LockRunResult where
  sys : ReservoirSys
  lockHeld : Option String
  raised : Bool
  lockedOut : Bool
deriving DecidableEq

/-- The lock protocol of `tap_to_reservoir`: fail fast when the lock
exists; otherwise write the pipeline id as the lock contents, run the
ingest body (outcome abstracted by `body_fails` and the index/store it
leaves in memory), and in a `finally` upload the in-memory index and
delete the lock — whether or not the body raised. -/
def tap_to_reservoir_lock (pipeline_id : String) (body_fails : Bool)
    (body_index : RIndex) (body_store : Store) (sys : ReservoirSys) :
    LockRunResult :=
  if sys.lock.isSome then ⟨sys, none, true, true⟩
  else
    ⟨⟨none, some body_index, body_store⟩, some pipeline_id, body_fails, false⟩

/-- A reservoir ingest followed — with no compaction in between — by an
emit: run the ingestor on the tap output, then run the emitter on the
index and files it produced with a fresh target-side state, and return
the lines delivered to the target's stdin. -/
def ingest_then_emit (bufferSize : Nat) (input : List IngestLine) :
    Except (Sum IngestError Unit) (List String) := do
  let st ← (reservoir_ingestor bufferSize input [] .nil).mapError Sum.inl
  let r ← (reservoir_to_target ⟨none, []⟩ ⟨none, st.reservoir⟩
    st.flushed).mapError Sum.inr
  .ok r.2.1

/-- The store a compaction body result carries (both on success and on a
caught exception). -/
def bodyStore : BodyRes → Store
  | .ok s _ => s
  | .exn s => s

/-- The changed flag of a compaction body result (an exception counts as
changed, as in the source's `except` clause). -/
def bodyChanged : BodyRes → Bool
  | .ok _ c => c
  | .exn _ => true

/-- A SCHEMA message for stream `s` occurs among the given lines. -/
def schemaSeen (pre : List IngestLine) (s : String) : Prop :=
  ∃ l ∈ pre, ∃ t, l.msg = some (Msg.schema s t)

/-- Every line parses as JSON. -/
def allValid (input : List IngestLine) : Prop :=
  ∀ l ∈ input, l.msg.isSome = true

/-- A SCHEMA message for a stream precedes every RECORD message of that
stream. -/
def schemaFirst (input : List IngestLine) : Prop :=
  ∀ (pre : List IngestLine) (l : IngestLine) (post : List IngestLine)
    (s : String),
    input = pre ++ l :: post → l.msg = some (Msg.record s) → schemaSeen pre s

/-- The ingest-loop invariant: every buffered stream has seen a schema,
every schema-seen stream has a buffer, an active schema id, and a slot
for it, and every buffered stream has an active entry. -/
def IngestInv (pre : List IngestLine) (st : IngestState) : Prop :=
  (∀ p ∈ st.buffers, schemaSeen pre p.1) ∧
  (∀ s, schemaSeen pre s →
    ∃ slots a, alookup st.buffers s = some slots ∧
      alookup st.active s = some a ∧ ahas slots a = true) ∧
  (∀ p ∈ st.buffers, (alookup st.active p.1).isSome = true)

/-- A non-container JSON value (what `recursive_record_apply` treats as a
leaf: neither `dict` nor `list`). -/
def isLeaf : JVal → Bool
  | .obj _ => false
  | .arr _ => false
  | _ => true

/-- The raw lines of the RECORD messages of a tap output — the record
multiset the tap emitted. -/
def tapRecordLines (input : List IngestLine) : List String :=
  (input.filter fun l =>
    match l.msg with
    | some (.record _) => true
    | _ => false).map fun l => l.raw

/-! ## Concrete inputs used by the claim theorems -/

/-- Emitter state of scenario 4 of the spec: `{__version__:3,
s:{emitted:"a.gz"}}`. -/
def c1state : EmitterState := ⟨some 3, [("s", "a.gz")]⟩

/-- Post-compaction index of scenario 4: `{__version__:4, s:[b.gz,
c.gz]}` (full paths carry the `stream/schema_id/` segments the code
splits on). -/
def c1idx : RIndex := ⟨some 4, [("s", ["s/sc/b.gz", "s/sc/c.gz"])]⟩

/-- The stored batch contents for scenario 4. -/
def c1store : List (String × List String) :=
  [("s/sc/b.gz", ["SCHEMA_S", "REC_B"]), ("s/sc/c.gz", ["SCHEMA_S", "REC_C"])]

/-- Tap output with two schemas for one stream and one record under
each, all below the flush threshold. -/
def c2input : List IngestLine :=
  [⟨"SCHEMA_A", some (.schema "s" "A")⟩, ⟨"R1", some (.record "s")⟩,
   ⟨"SCHEMA_B", some (.schema "s" "B")⟩, ⟨"R2", some (.record "s")⟩]

/-- Tap output whose third line is not valid JSON, arriving after a
record. -/
def c3input : List IngestLine :=
  [⟨"SCHEMA_S", some (.schema "s" "sch1")⟩, ⟨"R1", some (.record "s")⟩,
   ⟨"oops", none⟩]

/-- Scenario 3 of the spec: `s:[a.gz(5MiB), b.gz(5MiB), c.gz(30MiB)]`. -/
def c4store : Store :=
  [("s/sc/a.singer.gz", ⟨5242880, [1]⟩), ("s/sc/b.singer.gz", ⟨5242880, [2]⟩),
   ("s/sc/c.singer.gz", ⟨31457280, [3]⟩)]

/-- The scenario-3 system: no lock, index at version 3. -/
def c4sys : ReservoirSys :=
  ⟨none,
   some ⟨some 3,
     [("s", ["s/sc/a.singer.gz", "s/sc/b.singer.gz", "s/sc/c.singer.gz"])]⟩,
   c4store⟩

/-- Two files of 26 000 000 bytes: smaller than 25 MiB (26 214 400) but
not smaller than the source's `2.5e7` threshold. -/
def c4storeD : Store :=
  [("s/sc/d.singer.gz", ⟨26000000, [4]⟩),
   ("s/sc/e.singer.gz", ⟨26000000, [5]⟩)]

/-- The 26 MB-file system for the threshold counterexample. -/
def c4sysD : ReservoirSys :=
  ⟨none, some ⟨some 3, [("s", ["s/sc/d.singer.gz", "s/sc/e.singer.gz"])]⟩,
   c4storeD⟩

/-- A metadata root entry as parsed from `{"breadcrumb": [],
"metadata": {}}`. -/
def rootE : MetaEntry := mkMetaEntry [] none none none

/-- A field metadata entry as parsed from `{"breadcrumb": ["properties",
f], "metadata": {}}`. -/
def fieldE (f : String) : MetaEntry := mkMetaEntry ["properties", f] none none none

/-- JSON schema of the `orders` stream: fields `id` and `email`. -/
def ordersSchema : JObj :=
  .cons "type" (.str "object")
    (.cons "properties"
      (.obj (.cons "id" (.obj (.cons "type" (.str "integer") .nil))
        (.cons "email" (.obj (.cons "type" (.str "string") .nil)) .nil)))
      .nil)

/-- JSON schema of the `users` stream: field `id`. -/
def usersSchema : JObj :=
  .cons "type" (.str "object")
    (.cons "properties"
      (.obj (.cons "id" (.obj (.cons "type" (.str "integer") .nil)) .nil))
      .nil)

/-- The `orders` stream of the selection scenarios. -/
def ordersStream : StreamS :=
  ⟨"orders", ordersSchema, [rootE, fieldE "id", fieldE "email"], false⟩

/-- The `users` stream of the selection scenarios. -/
def usersStream : StreamS :=
  ⟨"users", usersSchema, [rootE, fieldE "id"], false⟩

/-- The tap command of the C8 scenario. -/
def c8tapCmd : List String :=
  tap_command "tap-mock" "cfg.json" "cat.json" "state.json" false false false
    false

/-! ## Claim theorems -/

/-- C1: with prior state `{__version__:3, s:{emitted:"a.gz"}}` and index
`{__version__:4, s:[b.gz, c.gz]}`, the reconciliation loop of
`reservoir_to_target` *advances* the bookmark to `"c.gz"` (it raises the
bookmark to any larger filename instead of taking the maximum filename
`≤` the previously emitted one), so the subsequent emission finds an
empty work queue and delivers nothing — `b.gz` and `c.gz` are silently
skipped.  Had reconciliation left the bookmark at `"a.gz"` as the claim
expects (second conjunct), both files would have been delivered. -/
theorem c1_reconciliation_skips_unemitted_files :
    reservoir_to_target c1state c1idx c1store =
      .ok (⟨some 4, [("s", "c.gz")]⟩, [], 0) ∧
    reservoir_to_target ⟨some 4, [("s", "a.gz")]⟩ c1idx c1store =
      .ok (⟨some 4, [("s", "c.gz")]⟩,
        ["SCHEMA_S", "REC_B", "SCHEMA_S", "REC_C"], 2) := by
  constructor
  · decide
  · decide

/-- C2: on a tap output `[SCHEMA A, R1, SCHEMA B, R2]` for one stream
(records below the flush threshold), the ingestor replaces the whole
per-stream buffer dict when the second schema arrives, discarding the
buffered `R1`; the subsequent emit delivers only `[SCHEMA_B, R2]` — the
record `R1` is lost, so ingest-then-emit does not deliver the tap's
record multiset `[R1, R2]`. -/
theorem c2_second_schema_discards_buffered_records :
    ingest_then_emit 10000 c2input = .ok ["SCHEMA_B", "R2"] ∧
    tapRecordLines c2input = ["R1", "R2"] ∧
    ("R1" ∈ ["SCHEMA_B", "R2"]) = False := by
  refine ⟨by decide, by decide, by decide⟩

/-- C3: a line that is not valid JSON is not dropped.  The `except`
clause has no `continue`, so (first conjunct) an invalid first line
leaves `message` unbound and the ingest aborts with a `NameError`, and
(second conjunct) an invalid line arriving after a record re-executes the
RECORD branch and appends the invalid raw line `"oops"` to the stream's
buffer, which is then flushed into the reservoir batch. -/
theorem c3_invalid_line_reprocessed_not_dropped :
    reservoir_ingestor 10000 [⟨"oops", none⟩] [] .nil = .error .nameError ∧
    (reservoir_ingestor 10000 c3input [] .nil).map
        (fun st => st.flushed.map fun f => f.2) =
      .ok [["SCHEMA_S", "R1", "oops"]] := by
  refine ⟨by decide, by decide⟩

/-- C4 counterexample: the compactable threshold is `2.5e7` bytes, not
25 MiB.  Two files of 26 000 000 bytes are each smaller than 25 MiB
(26 214 400), so under the claim they form a merge queue exceeding
25 MiB and the lexicographically smaller one is deleted; but the code
classifies them as non-compactable (`26 000 000 < 25 000 000` fails) and
the run changes nothing — both files survive and the version stays 3. -/
theorem c4_threshold_not_25mib :
    26000000 < 25 * 1024 * 1024 ∧
    compact_reservoir c4sysD = .ok c4sysD := by
  refine ⟨by norm_num, by decide⟩

/-- C6: lock handling, evaluated.  (1) `tap_to_reservoir` fails fast on
an existing lock, leaving the system unchanged; (2) when it acquires the
lock it writes the pipeline id and deletes the lock even when the body
raises; (3) `compact_reservoir` fails fast on an existing lock; (4) but
on the missing-index early return, `compact_reservoir` returns with the
lock object still present — the claim's guaranteed deletion does not
hold on that branch. -/
theorem c6_compactor_leaks_lock_on_missing_index :
    tap_to_reservoir_lock "pid-1" false ⟨none, []⟩ [] ⟨some "other", none, []⟩ =
      ⟨⟨some "other", none, []⟩, none, true, true⟩ ∧
    tap_to_reservoir_lock "pid-1" true ⟨none, []⟩ [] ⟨none, none, []⟩ =
      ⟨⟨none, some ⟨none, []⟩, []⟩, some "pid-1", true, false⟩ ∧
    compact_reservoir ⟨some "other", some ⟨some 0, []⟩, []⟩ =
      .error "lock file exists, aborting" ∧
    compact_reservoir ⟨none, none, []⟩ =
      .ok ⟨some "compaction in progress", none, []⟩ := by
  refine ⟨by decide, by decide, by decide, by decide⟩

/-- C7 counterexample: with selections `["!users.*", "~orders.email"]`
every pattern *not* prefixed with `~` begins with `!`, yet no implicit
`*.*` is prepended (the source's check requires *all* selections to
begin with `!`, and the `~` pattern does not), so instead of selecting
everything but `users`, pass 2 removes every stream — `orders`
included. -/
theorem c7_tilde_defeats_all_inverted_check :
    (["!users.*", "~orders.email"].filter fun s =>
      ¬strStartsWith s "~").all (fun s => strStartsWith s "!") = true ∧
    preprocess_selections ["!users.*", "~orders.email"] =
      [("users", "*", true), ("~orders", "email", false)] ∧
    apply_selected [ordersStream, usersStream]
      ["!users.*", "~orders.email"] .prune = [] := by
  refine ⟨by decide, by decide, by decide⟩

/-- C7 amended: when *every* selection pattern begins with `!` (a
`~`-prefixed pattern counts as not beginning with `!`, so any `~`
pattern defeats the check), an implicit `*.*` pattern is prepended
before pass 1; concretely, for patterns `["!users.*"]` under PRUNE on
the orders/users catalog, every stream and field survives selected
except the fields of `users`, and the `users` stream is removed. -/
theorem c7_all_inverted_prepends_star :
    (∀ sels : List String, sels ≠ [] →
      sels.all (fun s => strStartsWith s "!") = true →
      preprocess_selections sels =
        ("*", "*", false) :: sels.map parse_pattern) ∧
    apply_selected [ordersStream, usersStream] ["!users.*"] .prune =
      [⟨"orders", ordersSchema,
        [⟨[], some true, none, some "available"⟩,
         ⟨["properties", "id"], some true, none, none⟩,
         ⟨["properties", "email"], some true, none, none⟩], true⟩] := by
  constructor
  · intro sels hne hall
    have hp : parse_pattern "*.*" = ("*", "*", false) := by decide
    simp only [preprocess_selections, if_neg hne, hall, if_true,
      List.map_cons, hp, List.all_cons]
    simp
  · decide

/-- C7 witness: the prepend clause applied at `["!users.*"]`. -/
theorem c7_all_inverted_prepends_star_witness :
    preprocess_selections ["!users.*"] =
      ("*", "*", false) :: ["!users.*"].map parse_pattern :=
  c7_all_inverted_prepends_star.1 ["!users.*"] (by decide) (by decide)

/-- C8 counterexample: when the tap exits 0 and the target exits 1, the
raised error carries the target's exit code but the *tap's* command —
not the command of the failing target process. -/
theorem c8_error_carries_tap_command :
    run_pipeline_wait 0 1 c8tapCmd = .error ⟨1, c8tapCmd⟩ ∧
    c8tapCmd ≠ target_command "target-mock" "tcfg.json" := by
  refine ⟨by decide, by decide⟩

/-- C8 amended: `run_pipeline` raises iff the tap or the target exits
non-zero; the raised error carries the failing exit code (the tap's code
taking precedence) while its command is the tap's command in both
cases. -/
theorem c8_wait_raises_iff_nonzero (trc grc : Int) (cmd : List String) :
    (run_pipeline_wait trc grc cmd = .ok () ↔ trc = 0 ∧ grc = 0) ∧
    (trc ≠ 0 → run_pipeline_wait trc grc cmd = .error ⟨trc, cmd⟩) ∧
    (trc = 0 → grc ≠ 0 → run_pipeline_wait trc grc cmd = .error ⟨grc, cmd⟩) := by
  unfold run_pipeline_wait
  refine ⟨?_, ?_, ?_⟩
  · constructor
    · intro h
      by_cases h1 : trc = 0 <;> by_cases h2 : grc = 0 <;> simp_all
    · rintro ⟨h1, h2⟩
      simp [h1, h2]
  · intro h
    simp [h]
  · intro h1 h2
    simp [h1, h2]

/-- C8 witness: the amended theorem applied at exit codes (0, 1). -/
theorem c8_wait_raises_iff_nonzero_witness :
    run_pipeline_wait 0 1 ["t"] = .error ⟨1, ["t"]⟩ :=
  (c8_wait_raises_iff_nonzero 0 1 ["t"]).2.2 rfl (by decide)

/-- C9 counterexample: `md5("a@b")` is
`a1ca0ed6e42a23f4758e8a3f6b54de58`, not the
`ab53a2911ddf9b4817ac01ddcd3d975f` the claim asserts; the PII-hash map
accordingly transforms the `users` record's `email = "a@b"` into the
former value. -/
theorem c9_digest_of_email_differs :
    md5Hex "a@b" = "a1ca0ed6e42a23f4758e8a3f6b54de58" ∧
    ("a1ca0ed6e42a23f4758e8a3f6b54de58" =
      "ab53a2911ddf9b4817ac01ddcd3d975f") = False ∧
    transform_record ["users.email"] "users"
        (.cons "email" (.str "a@b") .nil) =
      .cons "email" (.str "a1ca0ed6e42a23f4758e8a3f6b54de58") .nil := by
  refine ⟨by decide, by decide, by decide⟩

/-- C9 amended: the PII-hash map replaces every selected leaf value `v`
with `md5(str(v))` and rewrites a selected (non-object, non-array)
schema node to `{type: "string", format: "hash"}`; it is deterministic —
selected leaves with equal `str(v)` hash equally; and concretely, select
`["*.*", "~users.email"]` yields hash rule `users.email`, under which
the `users` record's `email = "a@b"` becomes
`a1ca0ed6e42a23f4758e8a3f6b54de58` and the `email` schema property
becomes `{type: "string", format: "hash"}`. -/
theorem c9_pii_hash_map_behaviour :
    (∀ (select : List String) (crumb : String) (v : JVal),
      isLeaf v = true → crumb_selected select crumb = true →
      recursive_record_apply select pii_hash v crumb =
        .str (md5Hex (pyStr v))) ∧
    (∀ (select : List String) (crumb : String) (v : JVal),
      jtype v ≠ some "object" → jtype v ≠ some "array" →
      crumb_selected select crumb = true →
      recursive_schema_apply select jsonschema_string v crumb =
        .obj (.cons "type" (.str "string")
          (.cons "format" (.str "hash") .nil))) ∧
    (∀ (select : List String) (crumb : String) (v w : JVal),
      isLeaf v = true → isLeaf w = true → pyStr v = pyStr w →
      crumb_selected select crumb = true →
      recursive_record_apply select pii_hash v crumb =
        recursive_record_apply select pii_hash w crumb) ∧
    (get_hash_rules ["*.*", "~users.email"] = ["users.email"] ∧
     transform_record ["users.email"] "users"
         (.cons "email" (.str "a@b") .nil) =
       .cons "email" (.str "a1ca0ed6e42a23f4758e8a3f6b54de58") .nil ∧
     transform_schema ["users.email"] "users"
         (.cons "email" (.obj (.cons "type" (.str "string") .nil)) .nil) =
       .cons "email" (.obj (.cons "type" (.str "string")
         (.cons "format" (.str "hash") .nil))) .nil) := by
  have leaf : ∀ (select : List String) (crumb : String) (v : JVal),
      isLeaf v = true → crumb_selected select crumb = true →
      recursive_record_apply select pii_hash v crumb =
        .str (md5Hex (pyStr v)) := by
    intro select crumb v hv hc
    cases v <;> simp_all [recursive_record_apply, isLeaf, pii_hash]
  refine ⟨leaf, ?_, ?_, by decide, by decide, by decide⟩
  · intro select crumb v ho ha hc
    unfold recursive_schema_apply jsonschema_string
    rw [if_neg ho, if_neg ha, if_pos hc]
  · intro select crumb v w hv hw hvw hc
    rw [leaf select crumb v hv hc, leaf select crumb w hw hc, hvw]

/-- C9 amended witness: the leaf, schema and determinism clauses applied
at the concrete email value. -/
theorem c9_pii_hash_map_behaviour_witness :
    recursive_record_apply ["users.email"] pii_hash (.str "a@b")
        "users.email" =
      .str (md5Hex (pyStr (.str "a@b"))) ∧
    recursive_schema_apply ["users.email"] jsonschema_string
        (.obj (.cons "type" (.str "string") .nil)) "users.email" =
      .obj (.cons "type" (.str "string")
        (.cons "format" (.str "hash") .nil)) ∧
    recursive_record_apply ["users.email"] pii_hash (.str "a@b")
        "users.email" =
      recursive_record_apply ["users.email"] pii_hash (.str "a@b")
        "users.email" :=
  ⟨c9_pii_hash_map_behaviour.1 ["users.email"] "users.email" (.str "a@b")
      (by decide) (by decide),
   c9_pii_hash_map_behaviour.2.1 ["users.email"] "users.email"
      (.obj (.cons "type" (.str "string") .nil)) (by decide) (by decide)
      (by decide),
   c9_pii_hash_map_behaviour.2.2.1 ["users.email"] "users.email"
      (.str "a@b") (.str "a@b") (by decide) (by decide) rfl (by decide)⟩


/-! ### Helper lemmas for the compactor claims -/

/-- Once the merge loop's changed flag is set it stays set. -/
theorem qloop_flag_mono (rest : List (String × Nat)) :
    ∀ store queue qb s c,
    compact_queue_loop store rest queue qb true = .ok s c → c = true := by
  induction rest with
  | nil =>
      intro store queue qb s c h
      unfold compact_queue_loop at h
      split at h
      · split at h
        · exact absurd h (by simp)
        · cases h; rfl
      · cases h; rfl
  | cons hd tl ih =>
      intro store queue qb s c h
      unfold compact_queue_loop at h
      dsimp only at h
      split at h
      · split at h
        · exact absurd h (by simp)
        · exact ih _ _ _ _ _ h
      · exact ih _ _ _ _ _ h

/-- A merge loop that reports no change did not touch the store. -/
theorem qloop_ok_false_store (rest : List (String × Nat)) :
    ∀ store queue qb ch s,
    compact_queue_loop store rest queue qb ch = .ok s false → s = store := by
  induction rest with
  | nil =>
      intro store queue qb ch s h
      unfold compact_queue_loop at h
      split at h
      · split at h
        · exact absurd h (by simp)
        · cases h
      · cases h; rfl
  | cons hd tl ih =>
      intro store queue qb ch s h
      unfold compact_queue_loop at h
      dsimp only at h
      split at h
      · split at h
        · exact absurd h (by simp)
        · exact absurd (qloop_flag_mono tl _ _ _ _ _ h) (by simp)
      · exact ih _ _ _ _ _ h

/-- Flag monotonicity for the partition loop. -/
theorem partitions_flag_mono (parts : List (String × List (String × Nat))) :
    ∀ store s c,
    compact_partitions store parts true = .ok s c → c = true := by
  induction parts with
  | nil => intro store s c h; cases h; rfl
  | cons hd tl ih =>
      intro store s c h
      unfold compact_partitions at h
      dsimp only at h
      split at h
      · exact ih _ _ _ h
      · split at h
        · exact absurd h (by simp)
        · rename_i s' c' heq
          have hc' := qloop_flag_mono _ _ _ _ _ _ heq
          subst hc'
          exact ih _ _ _ h

/-- An unchanged partition loop did not touch the store. -/
theorem partitions_ok_false_store
    (parts : List (String × List (String × Nat))) :
    ∀ store ch s,
    compact_partitions store parts ch = .ok s false → s = store := by
  induction parts with
  | nil => intro store ch s h; cases h; rfl
  | cons hd tl ih =>
      intro store ch s h
      unfold compact_partitions at h
      dsimp only at h
      split at h
      · exact ih _ _ _ h
      · split at h
        · exact absurd h (by simp)
        · rename_i s' c' heq
          cases c' with
          | true => exact absurd (partitions_flag_mono tl _ _ _ h) (by simp)
          | false =>
              have h1 := ih _ _ _ h
              have h2 := qloop_ok_false_store _ _ _ _ _ _ heq
              rw [h1, h2]

/-- Flag monotonicity for one stream. -/
theorem stream_flag_mono (store : Store) (paths : List String) (s : Store)
    (c : Bool) (h : compact_stream store paths true = .ok s c) : c = true := by
  unfold compact_stream at h
  split at h
  · cases h; rfl
  · split at h
    · exact absurd h (by simp)
    · exact partitions_flag_mono _ _ _ _ h

/-- An unchanged stream pass did not touch the store. -/
theorem stream_ok_false_store (store : Store) (paths : List String)
    (ch : Bool) (s : Store)
    (h : compact_stream store paths ch = .ok s false) : s = store := by
  unfold compact_stream at h
  split at h
  · cases h; rfl
  · split at h
    · exact absurd h (by simp)
    · exact partitions_ok_false_store _ _ _ _ h

/-- Flag monotonicity for the whole body. -/
theorem body_flag_mono (streams : List (String × List String)) :
    ∀ store s c, compact_body store streams true = .ok s c → c = true := by
  induction streams with
  | nil => intro store s c h; cases h; rfl
  | cons hd tl ih =>
      intro store s c h
      unfold compact_body at h
      split at h
      · exact absurd h (by simp)
      · rename_i s' c' heq
        have hc' := stream_flag_mono _ _ _ _ heq
        subst hc'
        exact ih _ _ _ h

/-- A body run that reports no change did not touch the store. -/
theorem body_ok_false_store (streams : List (String × List String)) :
    ∀ store ch s, compact_body store streams ch = .ok s false → s = store := by
  induction streams with
  | nil => intro store ch s h; cases h; rfl
  | cons hd tl ih =>
      intro store ch s h
      unfold compact_body at h
      split at h
      · exact absurd h (by simp)
      · rename_i s' c' heq
        cases c' with
        | true => exact absurd (body_flag_mono tl _ _ _ h) (by simp)
        | false =>
            have h1 := ih _ _ _ h
            have h2 := stream_ok_false_store _ _ _ _ heq
            rw [h1, h2]

/-- C5: a compaction run on an unlocked system with a present index
returns an index whose version is the old version plus one when the body
changed anything (a merge ran or raised), and the old version — with the
store untouched — when nothing changed; consequently a single run never
decreases the version, and across any sequence of compaction runs the
version is monotone non-decreasing. -/
theorem c5_compaction_version_monotone :
    (∀ (sys : ReservoirSys) (idx : RIndex), sys.lock = none →
      sys.indexFile = some idx →
      ∃ sys', compact_reservoir sys = .ok sys' ∧
        sysVersion sys' =
          (if compact_changed idx sys.store then sysVersion sys + 1
           else sysVersion sys) ∧
        (compact_changed idx sys.store = false →
          sys'.store = sys.store)) ∧
    (∀ sys : ReservoirSys, sysVersion sys ≤ sysVersion (compact_run sys)) ∧
    (∀ (sys : ReservoirSys) (n : Nat),
      sysVersion (compact_run^[n] sys) ≤
        sysVersion (compact_run^[n + 1] sys)) := by
  have part1 : ∀ (sys : ReservoirSys) (idx : RIndex), sys.lock = none →
      sys.indexFile = some idx →
      ∃ sys', compact_reservoir sys = .ok sys' ∧
        sysVersion sys' =
          (if compact_changed idx sys.store then sysVersion sys + 1
           else sysVersion sys) ∧
        (compact_changed idx sys.store = false →
          sys'.store = sys.store) := by
    intro sys idx hl hi
    have hlk : sys.lock.isSome = false := by simp [hl]
    unfold compact_reservoir compact_changed
    simp only [hlk, Bool.false_eq_true, if_false, hi]
    cases hb : compact_body sys.store idx.streams false with
    | ok s c =>
        simp only [hb]
        cases c with
        | true =>
            refine ⟨_, rfl, ?_, by simp⟩
            simp [sysVersion, hi]
        | false =>
            refine ⟨_, rfl, ?_, ?_⟩
            · simp [sysVersion, hi]
            · intro _
              exact body_ok_false_store _ _ _ _ hb
    | exn s =>
        simp only [hb]
        refine ⟨_, rfl, ?_, by simp⟩
        simp [sysVersion, hi]
  have part2 : ∀ sys : ReservoirSys,
      sysVersion sys ≤ sysVersion (compact_run sys) := by
    intro sys
    unfold compact_run
    cases hcr : compact_reservoir sys with
    | error e => simp
    | ok sys' =>
        simp only
        by_cases hl : sys.lock = none
        · cases hi : sys.indexFile with
          | none =>
              unfold compact_reservoir at hcr
              simp [hl, hi] at hcr
              rw [← hcr]
              simp [sysVersion, hi]
          | some idx =>
              obtain ⟨sys'', hok, hver, _⟩ := part1 sys idx hl hi
              rw [hcr] at hok
              cases hok
              rw [hver]
              split <;> omega
        · unfold compact_reservoir at hcr
          have hs : sys.lock.isSome := Option.isSome_iff_ne_none.mpr
            (by simpa using hl)
          simp [hs] at hcr
  refine ⟨part1, part2, ?_⟩
  intro sys n
  rw [Function.iterate_succ_apply']
  exact part2 _

/-- C5 witness: the version-bump clause applied to the scenario-3
system. -/
theorem c5_compaction_version_monotone_witness :
    ∃ sys', compact_reservoir c4sys = .ok sys' ∧
      sysVersion sys' =
        (if compact_changed
            ⟨some 3,
             [("s", ["s/sc/a.singer.gz", "s/sc/b.singer.gz",
               "s/sc/c.singer.gz"])]⟩ c4store
         then sysVersion c4sys + 1 else sysVersion c4sys) ∧
      (compact_changed
          ⟨some 3,
           [("s", ["s/sc/a.singer.gz", "s/sc/b.singer.gz",
             "s/sc/c.singer.gz"])]⟩ c4store = false →
        sys'.store = c4sys.store) :=
  c5_compaction_version_monotone.1 c4sys _ rfl rfl


/-! ### Helper lemmas for the untouched-above-threshold clause of C4 -/

/-- Membership through sorted insertion. -/
theorem mem_strInsertSorted (x y : String) (l : List String) :
    x ∈ strInsertSorted y l ↔ x = y ∨ x ∈ l := by
  induction l with
  | nil => simp [strInsertSorted]
  | cons z zs ih =>
      unfold strInsertSorted
      split
      · simp
      · simp [ih]
        tauto

/-- `strSorted` preserves membership. -/
theorem mem_strSorted (x : String) (l : List String) :
    x ∈ strSorted l ↔ x ∈ l := by
  induction l with
  | nil => simp [strSorted]
  | cons z zs ih =>
      unfold strSorted at ih ⊢
      simp [List.foldr_cons, mem_strInsertSorted, ih]

/-- Sorting a non-empty list is non-empty. -/
theorem strSorted_ne_nil (l : List String) (h : l ≠ []) :
    strSorted l ≠ [] := by
  intro hs
  cases l with
  | nil => exact h rfl
  | cons z zs =>
      have hz : z ∈ strSorted (z :: zs) := (mem_strSorted z _).mpr (by simp)
      rw [hs] at hz
      exact absurd hz (by simp)

/-- The defaulted last element of a non-empty list is a member. -/
theorem getLastD_mem (l : List String) (d : String) (h : l ≠ []) :
    l.getLastD d ∈ l := by
  induction l with
  | nil => exact absurd rfl h
  | cons z zs ih =>
      cases zs with
      | nil => simp [List.getLastD]
      | cons w ws =>
          have hm := ih (by simp)
          simp only [List.getLastD_cons] at hm ⊢
          right
          exact hm

/-- Characterization of lookup after a dict assignment. -/
theorem alookup_aset {α : Type} (m : List (String × α)) (k k' : String)
    (v : α) :
    alookup (aset m k v) k' = if k' = k then some v else alookup m k' := by
  induction m with
  | nil =>
      by_cases h : k' = k
      · simp [aset, alookup, h]
      · simp only [aset, alookup, if_neg h]
        rw [if_neg (fun hh => h hh.symm)]
  | cons e rest ih =>
      by_cases he : e.1 = k
      · simp only [aset, if_pos he]
        by_cases hk : k' = k
        · simp [alookup, hk]
        · simp only [alookup, if_neg hk]
          rw [if_neg (fun hh => hk hh.symm),
            if_neg (fun hh => hk (he.symm.trans hh).symm)]
      · simp only [aset, if_neg he]
        by_cases hep : e.1 = k'
        · have hk : ¬k' = k := fun hh => he (hep.trans hh)
          simp [alookup, hep, hk]
        · simp only [alookup, if_neg hep]
          exact ih

/-- Deleting other keys does not change a kept key's lookup. -/
theorem alookup_filter_keep {α : Type} (m : List (String × α))
    (S : List String) (p : String) (hp : p ∉ S) :
    alookup (m.filter fun e => e.1 ∉ S) p = alookup m p := by
  induction m with
  | nil => simp
  | cons e rest ih =>
      by_cases he : e.1 ∈ S
      · have hne : e.1 ≠ p := fun h => hp (h ▸ he)
        rw [List.filter_cons_of_neg (by simpa using he)]
        rw [ih]
        by_cases hep : e.1 = p
        · exact absurd hep hne
        · simp [alookup, hep]
      · rw [List.filter_cons_of_pos (by simpa using he)]
        by_cases hep : e.1 = p
        · simp [alookup, hep]
        · simp only [alookup, if_neg hep]
          exact ih

/-- An element of a dict after assignment is the assigned pair or an
original entry. -/
theorem mem_aset {α : Type} (m : List (String × α)) (k : String) (v : α)
    (x : String × α) (h : x ∈ aset m k v) : x = (k, v) ∨ x ∈ m := by
  induction m with
  | nil => simpa [aset] using h
  | cons e rest ih =>
      unfold aset at h
      split at h
      · rcases List.mem_cons.mp h with h1 | h1
        · exact Or.inl h1
        · exact Or.inr (List.mem_cons_of_mem _ h1)
      · rcases List.mem_cons.mp h with h1 | h1
        · exact Or.inr (h1 ▸ List.mem_cons_self _ _)
        · rcases ih h1 with h2 | h2
          · exact Or.inl h2
          · exact Or.inr (List.mem_cons_of_mem _ h2)

/-- A successful lookup yields a member. -/
theorem alookup_some_mem {α : Type} (m : List (String × α)) (k : String)
    (v : α) (h : alookup m k = some v) : (k, v) ∈ m := by
  induction m with
  | nil => simp [alookup] at h
  | cons e rest ih =>
      unfold alookup at h
      split at h
      · rename_i he
        cases h
        rw [← he]
        simp
      · exact List.mem_cons_of_mem _ (ih h)

/-- A merge does not touch paths outside its queue. -/
theorem merge_files_preserves (store store' : Store) (queue : List String)
    (p : String) (f : RFile) (hl : alookup store p = some f)
    (hq : p ∉ queue) (hne : queue ≠ [])
    (hm : merge_files store queue = some store') :
    alookup store' p = some f := by
  unfold merge_files at hm
  dsimp only at hm
  split at hm
  · exact absurd hm (by simp)
  · rename_i files hfiles
    have hpt : p ∉ strSorted queue := fun h => hq ((mem_strSorted p queue).mp h)
    have hlast : (strSorted queue).getLastD "" ∈ strSorted queue :=
      getLastD_mem _ _ (strSorted_ne_nil queue hne)
    have hpl : p ≠ (strSorted queue).getLastD "" := fun h => hpt (h ▸ hlast)
    cases hm
    rw [alookup_filter_keep]
    · rw [alookup_aset, if_neg hpl]
      exact hl
    · intro hmem
      exact hpt (List.dropLast_subset _ hmem)

/-- The merge-queue loop does not touch paths outside its inputs. -/
theorem qloop_untouched (rest : List (String × Nat)) :
    ∀ store queue qb ch (p : String) (f : RFile),
    alookup store p = some f → p ∉ rest.map Prod.fst → p ∉ queue →
    alookup (bodyStore (compact_queue_loop store rest queue qb ch)) p =
      some f := by
  induction rest with
  | nil =>
      intro store queue qb ch p f hl hr hq
      unfold compact_queue_loop
      split
      · rename_i hne
        cases hm : merge_files store queue with
        | none => simpa [bodyStore] using hl
        | some store' =>
            simp only [hm, bodyStore]
            exact merge_files_preserves store store' queue p f hl hq hne hm
      · simpa [bodyStore] using hl
  | cons hd tl ih =>
      intro store queue qb ch p f hl hr hq
      have hpd : p ≠ hd.1 := by
        intro h
        exact hr (by simp [h])
      have hrt : p ∉ tl.map Prod.fst := fun h => hr (by simp [h])
      have hq1 : p ∉ queue ++ [hd.1] := by
        intro h
        rcases List.mem_append.mp h with h1 | h1
        · exact hq h1
        · exact hpd (by simpa using h1)
      unfold compact_queue_loop
      dsimp only
      split
      · cases hm : merge_files store (queue ++ [hd.1]) with
        | none => simpa [bodyStore] using hl
        | some store' =>
            simp only [hm]
            have hl' := merge_files_preserves store store' _ p f hl hq1
              (by simp) hm
            exact ih store' [] 0 true p f hl' hrt (by simp)
      · exact ih store (queue ++ [hd.1]) (qb + hd.2) ch p f hl hrt hq1

/-- Every entry gathered by the size scan carries the scanned file's
recorded size. -/
theorem build_pbs_entries (store : Store) (paths : List String) :
    ∀ acc pbs,
    (∀ bin ∈ acc, ∀ e ∈ bin.2, ∃ f : RFile,
      alookup store e.1 = some f ∧ e.2 = f.size) →
    paths.foldlM
      (fun acc p =>
        (alookup store p).map fun f =>
          aset acc (pathSchemaSeg p)
            ((alookup acc (pathSchemaSeg p)).getD [] ++ [(p, f.size)]))
      acc = some pbs →
    ∀ bin ∈ pbs, ∀ e ∈ bin.2, ∃ f : RFile,
      alookup store e.1 = some f ∧ e.2 = f.size := by
  induction paths with
  | nil =>
      intro acc pbs hacc h
      simp only [List.foldlM_nil] at h
      cases h
      exact hacc
  | cons q qs ih =>
      intro acc pbs hacc h
      simp only [List.foldlM_cons] at h
      cases hf : alookup store q with
      | none => rw [hf] at h; simp [Option.map] at h
      | some fq =>
          rw [hf] at h
          refine ih (aset acc (pathSchemaSeg q)
              ((alookup acc (pathSchemaSeg q)).getD [] ++ [(q, fq.size)]))
            pbs ?_ ?_
          · intro bin hbin e he
            rcases mem_aset _ _ _ _ hbin with h1 | h1
            · subst h1
              rcases List.mem_append.mp he with h2 | h2
              · cases hold : alookup acc (pathSchemaSeg q) with
                | none => rw [hold] at h2; simp at h2
                | some old =>
                    rw [hold] at h2
                    exact hacc _ (alookup_some_mem _ _ _ hold) _ h2
              · have he2 : e = (q, fq.size) := by simpa using h2
                subst he2
                exact ⟨fq, hf, rfl⟩
            · exact hacc _ h1 _ he
          · exact h

theorem partitions_untouched (parts : List (String × List (String × Nat))) :
    ∀ store ch (p : String) (f : RFile),
    alookup store p = some f →
    (∀ bin ∈ parts, ∀ e ∈ bin.2, e.1 = p → ¬e.2 < 25000000) →
    alookup (bodyStore (compact_partitions store parts ch)) p = some f := by
  induction parts with
  | nil =>
      intro store ch p f hl _
      simpa [compact_partitions, bodyStore] using hl
  | cons hd tl ih =>
      intro store ch p f hl hbins
      have hhd : ∀ e ∈ hd.2, e.1 = p → ¬e.2 < 25000000 :=
        hbins hd (by simp)
      have htl : ∀ bin ∈ tl, ∀ e ∈ bin.2, e.1 = p → ¬e.2 < 25000000 :=
        fun bin hb => hbins bin (by simp [hb])
      unfold compact_partitions
      dsimp only
      split
      · exact ih store ch p f hl htl
      · have hpc :
            p ∉ ((hd.2.filter fun q => q.2 < 25000000).reverse.map
              Prod.fst) := by
          intro hmem
          simp only [List.map_reverse, List.mem_reverse, List.mem_map]
            at hmem
          obtain ⟨e, he, hep⟩ := hmem
          have hmf := List.mem_filter.mp he
          exact hhd e hmf.1 hep (by simpa using hmf.2)
        cases hq : compact_queue_loop store
            (hd.2.filter fun q => q.2 < 25000000).reverse [] 0 ch with
        | exn s =>
            have hu := qloop_untouched _ store [] 0 ch p f hl hpc (by simp)
            rw [hq] at hu
            simp only [hq]
            simpa [bodyStore] using hu
        | ok s c =>
            have hu := qloop_untouched _ store [] 0 ch p f hl hpc (by simp)
            rw [hq] at hu
            simp only [bodyStore] at hu
            simp only [hq]
            exact ih s c p f hu htl

theorem stream_untouched (store : Store) (paths : List String) (ch : Bool)
    (p : String) (f : RFile) (hl : alookup store p = some f)
    (hsz : 25000000 ≤ f.size) :
    alookup (bodyStore (compact_stream store paths ch)) p = some f := by
  unfold compact_stream
  split
  · simpa [bodyStore] using hl
  · cases hb : build_paths_by_schema store paths with
    | none =>
        simp only [hb]
        simpa [bodyStore] using hl
    | some pbs =>
        simp only [hb]
        refine partitions_untouched pbs store ch p f hl ?_
        intro bin hbin e he hep
        unfold build_paths_by_schema at hb
        obtain ⟨f', hf', hsz'⟩ :=
          build_pbs_entries store paths [] pbs (by simp) hb bin hbin e he
        rw [hep] at hf'
        rw [hl] at hf'
        cases hf'
        omega

theorem body_untouched (streams : List (String × List String)) :
    ∀ store ch (p : String) (f : RFile),
    alookup store p = some f → 25000000 ≤ f.size →
    alookup (bodyStore (compact_body store streams ch)) p = some f := by
  induction streams with
  | nil =>
      intro store ch p f hl _
      simpa [compact_body, bodyStore] using hl
  | cons hd tl ih =>
      intro store ch p f hl hsz
      unfold compact_body
      cases hs : compact_stream store hd.2 ch with
      | exn s =>
          have hu := stream_untouched store hd.2 ch p f hl hsz
          rw [hs] at hu
          simp only [hs]
          simpa [bodyStore] using hu
      | ok s c =>
          have hu := stream_untouched store hd.2 ch p f hl hsz
          rw [hs] at hu
          simp only [bodyStore] at hu
          simp only [hs]
          exact ih s c p f hu hsz

/-- C4 amended: files of `2.5e7` bytes or more are never touched by a
compaction run (general clause), and the scenario-3 partition
`[a(5MiB), b(5MiB), c(30MiB)]` merges `a` and `b` — contents
concatenated in sorted path order — into the lexicographically greatest
merged path `b`, deletes `a`, leaves `c` untouched, and bumps the
version from 3 to 4. -/
theorem c4_compaction_merges_below_threshold :
    compact_reservoir c4sys =
      .ok ⟨none,
        some ⟨some 4, [("s", ["s/sc/b.singer.gz", "s/sc/c.singer.gz"])]⟩,
        [("s/sc/b.singer.gz", ⟨10485760, [1, 2]⟩),
         ("s/sc/c.singer.gz", ⟨31457280, [3]⟩)]⟩ ∧
    (∀ (sys : ReservoirSys) (idx : RIndex) (p : String) (f : RFile),
      sys.lock = none → sys.indexFile = some idx →
      alookup sys.store p = some f → 25000000 ≤ f.size →
      ∃ sys', compact_reservoir sys = .ok sys' ∧
        alookup sys'.store p = some f) := by
  constructor
  · decide
  · intro sys idx p f hl hi hlp hsz
    have hlk : sys.lock.isSome = false := by simp [hl]
    unfold compact_reservoir
    simp only [hlk, Bool.false_eq_true, if_false, hi]
    have hbody := body_untouched idx.streams sys.store false p f hlp hsz
    cases hb : compact_body sys.store idx.streams false with
    | ok s c =>
        rw [hb] at hbody
        simp only [hb]
        cases c with
        | true => exact ⟨_, rfl, by simpa [bodyStore] using hbody⟩
        | false => exact ⟨_, rfl, by simpa [bodyStore] using hbody⟩
    | exn s =>
        rw [hb] at hbody
        simp only [hb]
        exact ⟨_, rfl, by simpa [bodyStore] using hbody⟩

/-- C4 witness: the untouched clause applied at the 26 MB file. -/
theorem c4_compaction_merges_below_threshold_witness :
    ∃ sys', compact_reservoir c4sysD = .ok sys' ∧
      alookup sys'.store "s/sc/d.singer.gz" = some ⟨26000000, [4]⟩ :=
  c4_compaction_merges_below_threshold.2 c4sysD
    ⟨some 3, [("s", ["s/sc/d.singer.gz", "s/sc/e.singer.gz"])]⟩
    "s/sc/d.singer.gz" ⟨26000000, [4]⟩ rfl rfl (by decide) (by decide)


/-! ### Helper lemmas for the ingest-ordering claim -/

/-- `foldlM` over an appended list, for `Except`. -/
theorem foldlM_append_except {ε σ α : Type} (f : σ → α → Except ε σ)
    (l1 : List α) :
    ∀ (l2 : List α) (s : σ),
    (l1 ++ l2).foldlM f s =
      (l1.foldlM f s) >>= fun s' => l2.foldlM f s' := by
  induction l1 with
  | nil => intro l2 s; simp
  | cons a tl ih =>
      intro l2 s
      simp only [List.cons_append, List.foldlM_cons]
      cases f s a with
      | error e => rfl
      | ok s1 => exact ih l2 s1

/-- `schemaSeen` is monotone in the line list. -/
theorem schemaSeen_mono (seen more : List IngestLine) (s : String)
    (h : schemaSeen seen s) : schemaSeen (seen ++ more) s := by
  obtain ⟨x, hx, t, ht⟩ := h
  exact ⟨x, List.mem_append_left _ hx, t, ht⟩

/-- `schemaSeen` over a one-line extension. -/
theorem schemaSeen_append_singleton (seen : List IngestLine)
    (l : IngestLine) (s : String) :
    schemaSeen (seen ++ [l]) s ↔
      schemaSeen seen s ∨ ∃ t, l.msg = some (Msg.schema s t) := by
  constructor
  · rintro ⟨x, hx, t, ht⟩
    rcases List.mem_append.mp hx with h1 | h1
    · exact Or.inl ⟨x, h1, t, ht⟩
    · have hxl : x = l := by simpa using h1
      exact Or.inr ⟨t, hxl ▸ ht⟩
  · rintro (⟨x, hx, t, ht⟩ | ⟨t, ht⟩)
    · exact ⟨x, List.mem_append_left _ hx, t, ht⟩
    · exact ⟨l, List.mem_append_right _ (by simp), t, ht⟩

/-- A successful lookup implies containment. -/
theorem ahas_of_alookup {α : Type} (m : List (String × α)) (k : String)
    (v : α) (h : alookup m k = some v) : ahas m k = true := by
  simp [ahas, h]

/-- One valid line preserves the ingest invariant, provided any record
line is for a stream whose schema was already seen; the step never
fails. -/
theorem step_preserves_inv (bs : Nat) (seen : List IngestLine)
    (st : IngestState) (l : IngestLine) (m : Msg)
    (hm : l.msg = some m) (hinv : IngestInv seen st)
    (hrec : ∀ s, m = Msg.record s → schemaSeen seen s) :
    ∃ st1, ingest_step bs st l = .ok st1 ∧ IngestInv (seen ++ [l]) st1 := by
  obtain ⟨inv1, inv2, inv3⟩ := hinv
  unfold ingest_step
  rw [hm]
  cases m with
  | state v =>
      refine ⟨_, rfl, ?_, ?_, ?_⟩
      · intro p hp
        exact schemaSeen_mono _ _ _ (inv1 p hp)
      · intro s hs
        rcases (schemaSeen_append_singleton seen l s).mp hs with h1 | ⟨t, ht⟩
        · exact inv2 s h1
        · rw [hm] at ht; cases ht
      · exact inv3
  | other stream =>
      refine ⟨_, rfl, ?_, ?_, ?_⟩
      · intro p hp
        exact schemaSeen_mono _ _ _ (inv1 p hp)
      · intro s hs
        rcases (schemaSeen_append_singleton seen l s).mp hs with h1 | ⟨t, ht⟩
        · exact inv2 s h1
        · rw [hm] at ht; cases ht
      · exact inv3
  | schema stream text =>
      have hseenl : schemaSeen (seen ++ [l]) stream :=
        (schemaSeen_append_singleton seen l stream).mpr
          (Or.inr ⟨text, hm⟩)
      cases hlb : alookup st.buffers stream with
      | some slots =>
          simp only [hlb]
          by_cases hhas : ahas slots (schema_id_of text) = true
          · rw [if_pos hhas]
            refine ⟨_, rfl, ?_, ?_, ?_⟩
            · intro p hp
              exact schemaSeen_mono _ _ _ (inv1 p hp)
            · intro s hs
              by_cases hstream : s = stream
              · subst hstream
                refine ⟨slots, schema_id_of text, hlb, ?_, hhas⟩
                rw [alookup_aset, if_pos rfl]
              · rcases (schemaSeen_append_singleton seen l s).mp hs with
                  h1 | ⟨t, ht⟩
                · obtain ⟨slots', a, hb', ha', hh'⟩ := inv2 s h1
                  refine ⟨slots', a, hb', ?_, hh'⟩
                  rw [alookup_aset, if_neg hstream]
                  exact ha'
                · rw [hm] at ht
                  cases ht
                  exact absurd rfl hstream
            · intro p hp
              by_cases hstream : p.1 = stream
              · rw [alookup_aset, if_pos hstream]
                rfl
              · rw [alookup_aset, if_neg hstream]
                exact inv3 p hp
          · rw [if_neg hhas]
            refine ⟨_, rfl, ?_, ?_, ?_⟩
            · intro p hp
              rcases mem_aset _ _ _ _ hp with h1 | h1
              · rw [h1]
                exact hseenl
              · exact schemaSeen_mono _ _ _ (inv1 p h1)
            · intro s hs
              by_cases hstream : s = stream
              · subst hstream
                refine ⟨[(schema_id_of text, ⟨0, l.raw, [l.raw]⟩)],
                  schema_id_of text, ?_, ?_, ?_⟩
                · rw [alookup_aset, if_pos rfl]
                · rw [alookup_aset, if_pos rfl]
                · simp [ahas, alookup]
              · rcases (schemaSeen_append_singleton seen l s).mp hs with
                  h1 | ⟨t, ht⟩
                · obtain ⟨slots', a, hb', ha', hh'⟩ := inv2 s h1
                  refine ⟨slots', a, ?_, ?_, hh'⟩
                  · rw [alookup_aset, if_neg hstream]
                    exact hb'
                  · rw [alookup_aset, if_neg hstream]
                    exact ha'
                · rw [hm] at ht
                  cases ht
                  exact absurd rfl hstream
            · intro p hp
              by_cases hstream : p.1 = stream
              · rw [alookup_aset, if_pos hstream]
                rfl
              · rw [alookup_aset, if_neg hstream]
                rcases mem_aset _ _ _ _ hp with h1 | h1
                · exact absurd (congrArg Prod.fst h1) hstream
                · exact inv3 p h1
      | none =>
          simp only [hlb]
          refine ⟨_, rfl, ?_, ?_, ?_⟩
          · intro p hp
            rcases mem_aset _ _ _ _ hp with h1 | h1
            · rw [h1]
              exact hseenl
            · exact schemaSeen_mono _ _ _ (inv1 p h1)
          · intro s hs
            by_cases hstream : s = stream
            · subst hstream
              refine ⟨[(schema_id_of text, ⟨0, l.raw, [l.raw]⟩)],
                schema_id_of text, ?_, ?_, ?_⟩
              · rw [alookup_aset, if_pos rfl]
              · rw [alookup_aset, if_pos rfl]
              · simp [ahas, alookup]
            · rcases (schemaSeen_append_singleton seen l s).mp hs with
                h1 | ⟨t, ht⟩
              · obtain ⟨slots', a, hb', ha', hh'⟩ := inv2 s h1
                refine ⟨slots', a, ?_, ?_, hh'⟩
                · rw [alookup_aset, if_neg hstream]
                  exact hb'
                · rw [alookup_aset, if_neg hstream]
                  exact ha'
              · rw [hm] at ht
                cases ht
                exact absurd rfl hstream
          · intro p hp
            by_cases hstream : p.1 = stream
            · rw [alookup_aset, if_pos hstream]
              rfl
            · rw [alookup_aset, if_neg hstream]
              rcases mem_aset _ _ _ _ hp with h1 | h1
              · exact absurd (congrArg Prod.fst h1) hstream
              · exact inv3 p h1
  | record stream =>
      obtain ⟨slots, aid, hb, ha, hh⟩ := inv2 stream (hrec stream rfl)
      obtain ⟨c, hc⟩ := Option.isSome_iff_exists.mp (by simpa [ahas] using hh)
      have hmem : (stream, slots) ∈ st.buffers := alookup_some_mem _ _ _ hb
      have hseen : schemaSeen seen stream := inv1 _ hmem
      have hbase : ∀ cX : Container,
          (∀ p ∈ aset st.buffers stream (aset slots aid cX),
            schemaSeen (seen ++ [l]) p.1) ∧
          (∀ s, schemaSeen (seen ++ [l]) s →
            ∃ slots' a, alookup (aset st.buffers stream (aset slots aid cX))
                s = some slots' ∧
              alookup st.active s = some a ∧ ahas slots' a = true) ∧
          (∀ p ∈ aset st.buffers stream (aset slots aid cX),
            (alookup st.active p.1).isSome = true) := by
        intro cX
        refine ⟨?_, ?_, ?_⟩
        · intro p hp
          rcases mem_aset _ _ _ _ hp with h1 | h1
          · rw [h1]
            exact schemaSeen_mono _ _ _ hseen
          · exact schemaSeen_mono _ _ _ (inv1 p h1)
        · intro s hs
          by_cases hstream : s = stream
          · subst hstream
            refine ⟨aset slots aid cX, aid, ?_, ha, ?_⟩
            · rw [alookup_aset, if_pos rfl]
            · simp [ahas, alookup_aset]
          · rcases (schemaSeen_append_singleton seen l s).mp hs with
              h1 | ⟨t, ht⟩
            · obtain ⟨slots', a, hb', ha', hh'⟩ := inv2 s h1
              refine ⟨slots', a, ?_, ha', hh'⟩
              rw [alookup_aset, if_neg hstream]
              exact hb'
            · rw [hm] at ht
              cases ht
        · intro p hp
          rcases mem_aset _ _ _ _ hp with h1 | h1
          · rw [h1]
            simp [ha]
          · exact inv3 p h1
      simp only [hb, ha, hc]
      by_cases hfull : bs ≤ c.count + 1
      · rw [if_pos hfull]
        exact ⟨_, rfl, hbase _⟩
      · rw [if_neg hfull]
        exact ⟨_, rfl, hbase _⟩

/-- A valid line either aborts with a `KeyError` or preserves the
buffered-streams-have-schemas property. -/
theorem step_buffers_schema (bs : Nat) (seen : List IngestLine)
    (st : IngestState) (l : IngestLine) (m : Msg) (hm : l.msg = some m)
    (hb : ∀ p ∈ st.buffers, schemaSeen seen p.1) :
    ingest_step bs st l = .error .keyError ∨
    ∃ st1, ingest_step bs st l = .ok st1 ∧
      ∀ p ∈ st1.buffers, schemaSeen (seen ++ [l]) p.1 := by
  unfold ingest_step
  rw [hm]
  cases m with
  | state v =>
      right
      exact ⟨_, rfl, fun p hp => schemaSeen_mono _ _ _ (hb p hp)⟩
  | other stream =>
      right
      exact ⟨_, rfl, fun p hp => schemaSeen_mono _ _ _ (hb p hp)⟩
  | schema stream text =>
      have hsl : schemaSeen (seen ++ [l]) stream :=
        (schemaSeen_append_singleton seen l stream).mpr (Or.inr ⟨text, hm⟩)
      have hnew : ∀ p ∈ aset st.buffers stream
          [(schema_id_of text, (⟨0, l.raw, [l.raw]⟩ : Container))],
          schemaSeen (seen ++ [l]) p.1 := by
        intro p hp
        rcases mem_aset _ _ _ _ hp with h1 | h1
        · rw [h1]
          exact hsl
        · exact schemaSeen_mono _ _ _ (hb p h1)
      cases hlb : alookup st.buffers stream with
      | some slots =>
          simp only [hlb]
          by_cases hhas : ahas slots (schema_id_of text) = true
          · rw [if_pos hhas]
            right
            exact ⟨_, rfl, fun p hp => schemaSeen_mono _ _ _ (hb p hp)⟩
          · rw [if_neg hhas]
            right
            exact ⟨_, rfl, hnew⟩
      | none =>
          simp only [hlb]
          right
          exact ⟨_, rfl, hnew⟩
  | record stream =>
      cases hlb : alookup st.buffers stream with
      | none =>
          left
          simp [hlb]
      | some slots =>
          simp only [hlb]
          cases hla : alookup st.active stream with
          | none => left; simp [hla]
          | some aid =>
              simp only [hla]
              cases hlc : alookup slots aid with
              | none => left; simp [hlc]
              | some c =>
                  simp only [hlc]
                  have hsm : schemaSeen seen stream :=
                    hb _ (alookup_some_mem _ _ _ hlb)
                  have hset : ∀ cX : Container,
                      ∀ p ∈ aset st.buffers stream (aset slots aid cX),
                      schemaSeen (seen ++ [l]) p.1 := by
                    intro cX p hp
                    rcases mem_aset _ _ _ _ hp with h1 | h1
                    · rw [h1]
                      exact schemaSeen_mono _ _ _ hsm
                    · exact schemaSeen_mono _ _ _ (hb p h1)
                  right
                  by_cases hfull : bs ≤ c.count + 1
                  · rw [if_pos hfull]
                    exact ⟨_, rfl, hset _⟩
                  · rw [if_neg hfull]
                    exact ⟨_, rfl, hset _⟩

/-- Folding valid lines either aborts with a `KeyError` or keeps every
buffered stream backed by a seen schema. -/
theorem ingest_fold_buffers_schema (bs : Nat) :
    ∀ (pre seen : List IngestLine) (st : IngestState), allValid pre →
    (∀ p ∈ st.buffers, schemaSeen seen p.1) →
    (pre.foldlM (ingest_step bs) st = .error .keyError ∨
     ∃ st', pre.foldlM (ingest_step bs) st = .ok st' ∧
       ∀ p ∈ st'.buffers, schemaSeen (seen ++ pre) p.1) := by
  intro pre
  induction pre with
  | nil =>
      intro seen st _ hb
      right
      exact ⟨st, rfl, by simpa using hb⟩
  | cons l rest ih =>
      intro seen st hv hb
      obtain ⟨m, hm⟩ := Option.isSome_iff_exists.mp (hv l (by simp))
      rcases step_buffers_schema bs seen st l m hm hb with herr | ⟨st1, hok, hb1⟩
      · left
        rw [List.foldlM_cons, herr]
        rfl
      · have hv' : allValid rest := fun x hx => hv x (by simp [hx])
        rcases ih (seen ++ [l]) st1 hv' hb1 with herr | ⟨st', hok', hb'⟩
        · left
          rw [List.foldlM_cons, hok]
          exact herr
        · right
          refine ⟨st', ?_, ?_⟩
          · rw [List.foldlM_cons, hok]
            exact hok'
          · rw [show seen ++ l :: rest = (seen ++ [l]) ++ rest by simp]
            exact hb'

/-- Folding schema-first valid lines succeeds and preserves the ingest
invariant. -/
theorem ingest_fold_inv (bs : Nat) :
    ∀ (input seen : List IngestLine) (st : IngestState),
    allValid input →
    (∀ (pre2 : List IngestLine) (l : IngestLine) (post : List IngestLine)
      (s : String), input = pre2 ++ l :: post →
      l.msg = some (Msg.record s) → schemaSeen (seen ++ pre2) s) →
    IngestInv seen st →
    ∃ st', input.foldlM (ingest_step bs) st = .ok st' ∧
      IngestInv (seen ++ input) st' := by
  intro input
  induction input with
  | nil =>
      intro seen st _ _ hinv
      exact ⟨st, rfl, by simpa using hinv⟩
  | cons l rest ih =>
      intro seen st hv hsbr hinv
      obtain ⟨m, hm⟩ := Option.isSome_iff_exists.mp (hv l (by simp))
      have hrec : ∀ s, m = Msg.record s → schemaSeen seen s := by
        intro s hms
        have hr := hsbr [] l rest s (by simp) (by rw [hm, hms])
        simpa using hr
      obtain ⟨st1, hstep, hinv1⟩ :=
        step_preserves_inv bs seen st l m hm hinv hrec
      have hv' : allValid rest := fun x hx => hv x (by simp [hx])
      have hsbr' : ∀ (pre2 : List IngestLine) (l' : IngestLine)
          (post : List IngestLine) (s : String),
          rest = pre2 ++ l' :: post → l'.msg = some (Msg.record s) →
          schemaSeen ((seen ++ [l]) ++ pre2) s := by
        intro pre2 l' post s heq hmsg
        have hr := hsbr (l :: pre2) l' post s (by rw [heq]; rfl) hmsg
        rw [show (seen ++ [l]) ++ pre2 = seen ++ l :: pre2 by simp]
        exact hr
      obtain ⟨st', hfold, hinv'⟩ := ih (seen ++ [l]) st1 hv' hsbr' hinv1
      refine ⟨st', ?_, ?_⟩
      · rw [List.foldlM_cons, hstep]
        exact hfold
      · rw [show seen ++ l :: rest = (seen ++ [l]) ++ rest by simp]
        exact hinv'

/-- The end-of-stream flush of one stream succeeds when the stream has
an active schema id, and does not touch the active map. -/
theorem eof_slots_ok (stream : String) :
    ∀ (slots : List (String × Container)) (st : IngestState),
    (alookup st.active stream).isSome = true →
    ∃ st', eof_flush_slots stream st slots = .ok st' ∧
      st'.active = st.active := by
  intro slots
  induction slots with
  | nil => intro st _; exact ⟨st, rfl, rfl⟩
  | cons e rest ih =>
      intro st h
      obtain ⟨sid, c⟩ := e
      obtain ⟨aid, ha⟩ := Option.isSome_iff_exists.mp h
      unfold eof_flush_slots
      by_cases hc : c.count = 0
      · rw [if_pos hc]
        exact ih st h
      · rw [if_neg hc]
        simp only [ha]
        exact ih _ (by simp [ha])

/-- The end-of-stream flush succeeds when every buffered stream has an
active schema id. -/
theorem eof_flush_ok :
    ∀ (blist : List (String × List (String × Container)))
      (st : IngestState),
    (∀ p ∈ blist, (alookup st.active p.1).isSome = true) →
    ∃ st', eof_flush st blist = .ok st' := by
  intro blist
  induction blist with
  | nil => intro st _; exact ⟨st, rfl⟩
  | cons e rest ih =>
      intro st h
      obtain ⟨stream, slots⟩ := e
      obtain ⟨st1, hsl, hact⟩ :=
        eof_slots_ok stream slots st (h (stream, slots) (List.mem_cons_self _ _))
      obtain ⟨st', hrest⟩ := ih st1 (by
        intro p hp
        rw [hact]
        exact h p (by simp [hp]))
      refine ⟨st', ?_⟩
      unfold eof_flush
      rw [hsl]
      exact hrest

/-- A RECORD line for a stream with no prior SCHEMA aborts the whole
ingest with the `KeyError` of the buffer lookup. -/
theorem ingest_record_before_schema_aborts (bs : Nat)
    (res0 : List (String × List String)) (states0 : JObj)
    (pre : List IngestLine) (l : IngestLine) (post : List IngestLine)
    (s : String) (hv : allValid pre) (hm : l.msg = some (Msg.record s))
    (hns : ¬schemaSeen pre s) :
    reservoir_ingestor bs (pre ++ l :: post) res0 states0 =
      .error .keyError := by
  unfold reservoir_ingestor
  dsimp only
  rw [foldlM_append_except]
  rcases ingest_fold_buffers_schema bs pre []
      ⟨none, [], [], res0, states0, 0, []⟩ hv (by simp) with
    herr | ⟨st', hok, hbs⟩
  · rw [herr]
    rfl
  · rw [hok]
    have hnone : alookup st'.buffers s = none := by
      cases hl2 : alookup st'.buffers s with
      | none => rfl
      | some slots =>
          exact absurd (by simpa using hbs _ (alookup_some_mem _ _ _ hl2))
            hns
    have hstep : ingest_step bs st' l = .error .keyError := by
      unfold ingest_step
      rw [hm]
      simp [hnone]
    show (do
        let st ← (l :: post).foldlM (ingest_step bs) st'
        eof_flush st st.buffers) = Except.error IngestError.keyError
    rw [List.foldlM_cons, hstep]
    rfl

/-- When a SCHEMA precedes every RECORD of its stream, the ingest runs
to completion. -/
theorem ingest_schema_first_succeeds (bs : Nat)
    (res0 : List (String × List String)) (states0 : JObj)
    (input : List IngestLine) (hv : allValid input)
    (hsf : schemaFirst input) :
    ∃ st, reservoir_ingestor bs input res0 states0 = .ok st := by
  unfold reservoir_ingestor
  dsimp only
  have hinv0 : IngestInv [] ⟨none, [], [], res0, states0, 0, []⟩ := by
    refine ⟨?_, ?_, ?_⟩
    · intro p hp
      exact absurd hp (by simp)
    · intro s hs
      obtain ⟨x, hx, _⟩ := hs
      exact absurd hx (by simp)
    · intro p hp
      exact absurd hp (by simp)
  obtain ⟨st', hfold, hinv⟩ := ingest_fold_inv bs input []
    ⟨none, [], [], res0, states0, 0, []⟩ hv
    (by
      intro pre2 l post s heq hmsg
      have hr := hsf pre2 l post s heq hmsg
      simpa using hr)
    hinv0
  obtain ⟨st'', heof⟩ := eof_flush_ok st'.buffers st'
    (fun p hp => hinv.2.2 p hp)
  refine ⟨st'', ?_⟩
  rw [hfold]
  exact heof

/-- C10: if a RECORD message arrives for a stream for which no SCHEMA
message has been processed in this run, the buffer lookup raises a
`KeyError` that aborts the ingest (the line is not dropped); under the
precondition that a SCHEMA message for a stream precedes every RECORD
message of that stream, every lookup on the RECORD branch succeeds and
the ingest completes. -/
theorem c10_record_requires_schema :
    (∀ (bs : Nat) (res0 : List (String × List String)) (states0 : JObj)
       (pre : List IngestLine) (l : IngestLine) (post : List IngestLine)
       (s : String),
      allValid pre → l.msg = some (Msg.record s) → ¬schemaSeen pre s →
      reservoir_ingestor bs (pre ++ l :: post) res0 states0 =
        .error .keyError) ∧
    (∀ (bs : Nat) (res0 : List (String × List String)) (states0 : JObj)
       (input : List IngestLine),
      allValid input → schemaFirst input →
      ∃ st, reservoir_ingestor bs input res0 states0 = .ok st) :=
  ⟨ingest_record_before_schema_aborts, ingest_schema_first_succeeds⟩

/-- C10 witness: the abort clause applied to a lone premature record,
and the success clause applied to a schema-then-record input. -/
theorem c10_record_requires_schema_witness :
    reservoir_ingestor 10000
        ([] ++ (⟨"R", some (Msg.record "s")⟩ : IngestLine) :: []) [] .nil =
      .error .keyError ∧
    ∃ st, reservoir_ingestor 10000
        [⟨"S", some (Msg.schema "s" "x")⟩, ⟨"R", some (Msg.record "s")⟩]
        [] .nil = .ok st :=
  ⟨c10_record_requires_schema.1 10000 [] .nil [] _ [] "s"
      (by intro x hx; exact absurd hx (by simp))
      rfl
      (by rintro ⟨x, hx, t, ht⟩; exact absurd hx (by simp)),
   c10_record_requires_schema.2 10000 [] .nil _
      (by unfold allValid; decide)
      (by
        intro pre l post s heq hmsg
        rcases pre with _ | ⟨a, _ | ⟨b, rest⟩⟩
        · simp only [List.nil_append] at heq
          injection heq with h1 h2
          rw [← h1] at hmsg
          simp at hmsg
        · injection heq with h1 h2
          injection h2 with h3 h4
          rw [← h3] at hmsg
          simp only at hmsg
          injection hmsg with h5
          injection h5 with h6
          subst h6
          subst h1
          exact ⟨⟨"S", some (Msg.schema "s" "x")⟩, by simp, "x", rfl⟩
        · injection heq with h1 h2
          injection h2 with h3 h4
          simp at h4)⟩

end Alto
